import Mathlib

/-!
The go-restaurant-api service: a shallow embedding of the handlers, the auth gate and the loader.

The Go sources embedded here are `handlers/places.go`, `handlers/geo.go`,
`handlers/auth.go`, `middleware/jwt.go` and `store/elasticsearch.go`.

Conventions of the embedding.

* A Go `int` is a Lean `Int` inside `[-2^63, 2^63)`; every arithmetic operation of the
  source is followed by `wrap64`, the two's complement wrap-around of a 64-bit machine.
* An `http.ResponseWriter` after a handler has run is a `Response` (status, content type,
  body); `http.Error` is `httpError`.
* A collaborator that the source reaches through an interface or a client object (the
  `store.Store`, the renderer, the Elasticsearch client, the file system) is a function
  argument; the calls a handler makes to it are recorded, in order, in a list of `Call`s.
* Third-party and standard-library routines (`strconv.ParseFloat`, `encoding/json`, the
  hash and the codecs inside `jwt-go`) are arguments too.
-/

namespace Restaurant

/-! ## Go machine integers -/

/-- Two's complement wrap-around of a 64-bit signed integer. -/
def wrap64 (x : Int) : Int := (x + 2 ^ 63) % 2 ^ 64 - 2 ^ 63

/-- A value that a Go `int` can hold on a 64-bit platform. -/
def InInt64 (x : Int) : Prop := -(2 ^ 63) ≤ x ∧ x < 2 ^ 63

instance (x : Int) : Decidable (InInt64 x) := by unfold InInt64; infer_instance

/-- Go `a + b` on `int`. -/
def add64 (a b : Int) : Int := wrap64 (a + b)

/-- Go `a - b` on `int`. -/
def sub64 (a b : Int) : Int := wrap64 (a - b)

/-- Go `a * b` on `int`. -/
def mul64 (a b : Int) : Int := wrap64 (a * b)

/-- Go `a / b` on `int` for a non-zero divisor: the quotient truncated towards zero. -/
def div64 (a b : Int) : Int := wrap64 (Int.tdiv a b)

/-! ## strconv.Atoi -/

/-- Value of a decimal digit, `none` for any other character. -/
def digitVal (c : Char) : Option Nat :=
  if '0' ≤ c ∧ c ≤ '9' then some (c.toNat - '0'.toNat) else none

/-- Value of a run of decimal digits read left to right, starting from `acc`. -/
def digitsVal : List Char → Nat → Option Nat
  | [], acc => some acc
  | c :: cs, acc =>
    match digitVal c with
    | none => none
    | some d => digitsVal cs (acc * 10 + d)

/-- The sign and the digits of the text `strconv.Atoi` reads: `true` for a leading minus. -/
def Atoi.split : List Char → Bool × List Char
  | '-' :: rest => (true, rest)
  | '+' :: rest => (false, rest)
  | cs => (false, cs)

/-- The signed value of a non-empty run of digits that fits a 64-bit `int`. -/
def Atoi.value (neg : Bool) (ds : List Char) : Option Int :=
  if ds = [] then none
  else
    match digitsVal ds 0 with
    | none => none
    | some n =>
      let v : Int := if neg then -(n : Int) else (n : Int)
      if InInt64 v then some v else none

/-- Go `strconv.Atoi`: an optional sign, then one or more decimal digits, with a value that
fits a 64-bit `int`; `none` stands for a non-nil error. -/
def Atoi (s : String) : Option Int :=
  Atoi.value (Atoi.split s.toList).1 (Atoi.split s.toList).2

/-! ## HTTP requests and responses -/

/-- The parts of an `*http.Request` the handlers read: the parsed query string and the
`Authorization` header (`""` when the header is absent, as `Header.Get` reports it). -/
structure Request where
  query : List (String × String)
  authorization : String
deriving DecidableEq, Repr

/-- Go `req.URL.Query().Get(key)`: the first value stored under `key`, `""` when there is none. -/
def Request.queryGet (req : Request) (key : String) : String :=
  match req.query.find? (fun kv => kv.1 == key) with
  | some kv => kv.2
  | none => ""

/-- What a handler leaves in the `http.ResponseWriter`. -/
structure Response where
  status : Nat
  contentType : String
  body : String
deriving DecidableEq, Repr

/-- Go `http.Error(w, msg, code)`: a plain-text reply carrying `msg` and a newline. -/
def httpError (msg : String) (code : Nat) : Response :=
  { status := code, contentType := "text/plain; charset=utf-8", body := msg ++ "\n" }

/-- Go `http.StatusBadRequest`. -/
def StatusBadRequest : Nat := 400

/-- Go `http.StatusUnauthorized`. -/
def StatusUnauthorized : Nat := 401

/-- Go `http.StatusInternalServerError`. -/
def StatusInternalServerError : Nat := 500

/-- Go `http.StatusOK`, the status of a reply that is written without `WriteHeader`. -/
def StatusOK : Nat := 200

/-! ## JSON objects built by the handlers -/

/-- The values the handlers store in a `map[string]interface{}` reply. -/
inductive JValue (Place : Type) where
  | str (s : String)
  | num (n : Int)
  | places (ps : List Place)
deriving DecidableEq, Repr

/-- A Go `map[string]interface{}` as an association list with at most one entry per key. -/
abbrev JObject (Place : Type) := List (String × JValue Place)

/-- Go `m[key] = v`: overwrite the entry of `key`, or add one. -/
def JObject.set {Place : Type} : JObject Place → String → JValue Place → JObject Place
  | [], key, v => [(key, v)]
  | (k, w) :: rest, key, v =>
    if k = key then (k, v) :: rest else (k, w) :: JObject.set rest key v

/-- Go `m[key]` with the comma-ok form: the value stored under `key`, if any. -/
def JObject.get? {Place : Type} : JObject Place → String → Option (JValue Place)
  | [], _ => none
  | (k, w) :: rest, key => if k = key then some w else JObject.get? rest key

/-! ## handlers/places.go -/

/-- The interface `store.Store`; an `Except.error` is a non-nil Go `error`. -/
structure Store (Place F : Type) where
  GetPlaces : Int → Int → Except String (List Place × Int)
  GetNearestPlaces : F → F → Int → Except String (List Place)

/-- The calls a handler makes to its collaborators. -/
inductive Call (Place F : Type) where
  | getPlaces (limit offset : Int)
  | getNearestPlaces (lat lon : F) (limit : Int)
  | render (places : List Place) (total pageNumber size : Int)
  | next (req : Request)
deriving DecidableEq, Repr

/-- The body `fmt.Sprintf` builds for a rejected `page` value. -/
def invalidPageBody (page : String) : String :=
  "\x7b\"error\": \"Invalid 'page' value: '" ++ page ++ "'\"\x7d"

/-- The `page` string of `HandleRequest`: the `page` query value, `"1"` when it is empty. -/
def HandleRequest.page (req : Request) : String :=
  let page := req.queryGet "page"
  if page = "" then "1" else page

/-- Go `HandleRequest`: the calls made, in order, and the reply. -/
def HandleRequest {Place F : Type} (req : Request) (store : Store Place F)
    (renderFunc : List Place → Int → Int → Int → Response) :
    List (Call Place F) × Response :=
  let page := HandleRequest.page req
  match Atoi page with
  | none => ([], httpError (invalidPageBody page) StatusBadRequest)
  | some pageNumber =>
    if pageNumber < 1 then
      ([], httpError (invalidPageBody page) StatusBadRequest)
    else
      let size : Int := 10
      let «from» := mul64 (sub64 pageNumber 1) size
      match store.GetPlaces size «from» with
      | .error _ =>
        ([Call.getPlaces size «from»],
          httpError "Error fetching places" StatusInternalServerError)
      | .ok (places, total) =>
        let lastPage := div64 (sub64 (add64 total size) 1) size
        if pageNumber > lastPage then
          ([Call.getPlaces size «from»],
            httpError (invalidPageBody page) StatusBadRequest)
        else
          ([Call.getPlaces size «from», Call.render places total pageNumber size],
            renderFunc places total pageNumber size)

/-- The `map[string]interface{}` that `RenderJSON` fills before encoding it. -/
def RenderJSON.response {Place : Type} (places : List Place) (total pageNumber size : Int) :
    JObject Place :=
  let response : JObject Place :=
    [("name", JValue.str "Places"), ("total", JValue.num total), ("places", JValue.places places)]
  let response :=
    if pageNumber > 1 then response.set "prev_page" (JValue.num (sub64 pageNumber 1))
    else response
  let response :=
    if mul64 pageNumber size < total then
      response.set "next_page" (JValue.num (add64 pageNumber 1))
    else response
  response.set "last_page" (JValue.num (div64 (sub64 (add64 total size) 1) size))

/-- Go `RenderJSON`; `encode` is `json.NewEncoder(w).Encode`, `none` when it reports an error. -/
def RenderJSON {Place : Type} (encode : JObject Place → Option String)
    (places : List Place) (total pageNumber size : Int) : Response :=
  match encode (RenderJSON.response places total pageNumber size) with
  | some body => { status := StatusOK, contentType := "application/json", body := body }
  | none => httpError "Error encoding response" StatusInternalServerError

/-! ## handlers/geo.go -/

/-- The error kinds of Go `strconv`. -/
inductive NumError where
  | ErrSyntax
  | ErrRange
deriving DecidableEq, Repr

/-- Go `strconv.ParseFloat(s, 64)` as the source sees it: a value and an optional error. The
float type `F` and the parser are arguments of every definition that uses them. -/
abbrev FloatParser (F : Type) := String → F × Option NumError

/-- The `map[string]interface{}` that the geo handler encodes. -/
def HandleGeoRequest.response {Place : Type} (places : List Place) : JObject Place :=
  [("name", JValue.str "Recommendation"), ("places", JValue.places places)]

/-- Go `HandleGeoRequest(store)` applied to one request; `encode` is
`json.NewEncoder(w).Encode`, `none` when it reports an error. -/
def HandleGeoRequest {Place F : Type} (ParseFloat : FloatParser F)
    (encode : JObject Place → Option String) (store : Store Place F) (req : Request) :
    List (Call Place F) × Response :=
  let latStr := req.queryGet "lat"
  let lonStr := req.queryGet "lon"
  match ParseFloat latStr with
  | (_, some _) => ([], httpError "Invalid latitude value" StatusBadRequest)
  | (lat, none) =>
    match ParseFloat lonStr with
    | (_, some _) => ([], httpError "Invalid longitude value" StatusBadRequest)
    | (lon, none) =>
      match store.GetNearestPlaces lat lon 3 with
      | .error _ =>
        ([Call.getNearestPlaces lat lon 3],
          httpError "Error fetching nearest places" StatusInternalServerError)
      | .ok places =>
        ([Call.getNearestPlaces lat lon 3],
          match encode (HandleGeoRequest.response places) with
          | some body => { status := StatusOK, contentType := "application/json", body := body }
          | none => httpError "Error encoding response" StatusInternalServerError)

/-! ## Time -/

/-- A Go `time.Time` as the number of nanoseconds since the Unix epoch. -/
structure Time where
  nanos : Int
deriving DecidableEq, Repr

/-- Go `time.Hour`, a `Duration` in nanoseconds. -/
def Hour : Int := 3600 * 1000000000

/-- Go `t.Add(d)`. -/
def Time.Add (t : Time) (d : Int) : Time := ⟨t.nanos + d⟩

/-- Go `t.Unix()`: whole seconds since the epoch, rounded down. -/
def Time.Unix (t : Time) : Int := Int.fdiv t.nanos 1000000000

/-! ## The parts of `github.com/dgrijalva/jwt-go` the source calls

The library is a dependency of the repository, not part of it. Its control flow
(`SignedString`, `ParseWithClaims`, `StandardClaims.Valid`, the HMAC signing method) and the
key schedule of Go `crypto/hmac` are written out; the hash functions, the base64url segment
codec and the JSON codecs of the header and the claims are the fields of `JwtPrims`. -/

/-- A Go `[]byte`. -/
abbrev Bytes := List UInt8

/-- Go `[]byte(s)`. -/
def stringBytes (s : String) : Bytes := s.toUTF8.toList

/-- The library's `jwt.StandardClaims`. -/
structure StandardClaims where
  Audience : String
  ExpiresAt : Int
  Id : String
  IssuedAt : Int
  Issuer : String
  NotBefore : Int
  Subject : String
deriving DecidableEq, Repr

/-- Go `&jwt.StandardClaims{ExpiresAt: exp}`: every other field has its zero value. -/
def StandardClaims.withExpiresAt (exp : Int) : StandardClaims :=
  { Audience := "", ExpiresAt := exp, Id := "", IssuedAt := 0, Issuer := "", NotBefore := 0,
    Subject := "" }

/-- The library's `verifyExp`. -/
def verifyExp (exp now : Int) (required : Bool) : Bool :=
  if exp = 0 then !required else decide (now ≤ exp)

/-- The library's `verifyIat`. -/
def verifyIat (iat now : Int) (required : Bool) : Bool :=
  if iat = 0 then !required else decide (now ≥ iat)

/-- The library's `verifyNbf`. -/
def verifyNbf (nbf now : Int) (required : Bool) : Bool :=
  if nbf = 0 then !required else decide (now ≥ nbf)

/-- The library's `StandardClaims.Valid`, `true` for a nil error; `now` is `TimeFunc().Unix()`. -/
def StandardClaims.Valid (c : StandardClaims) (now : Int) : Bool :=
  verifyExp c.ExpiresAt now false && verifyIat c.IssuedAt now false &&
    verifyNbf c.NotBefore now false

/-- The hash functions behind the HMAC signing methods. -/
inductive HashAlg where
  | SHA256
  | SHA384
  | SHA512
deriving DecidableEq, Repr

/-- Go `hash.Hash.BlockSize()`. -/
def HashAlg.blockSize : HashAlg → Nat
  | .SHA256 => 64
  | .SHA384 => 128
  | .SHA512 => 128

/-- The primitives the library is built on. -/
structure JwtPrims where
  /-- The digest of a message under a hash function. -/
  hashSum : HashAlg → Bytes → Bytes
  /-- The library's `EncodeSegment`: unpadded base64url. -/
  EncodeSegment : Bytes → String
  /-- The library's `DecodeSegment`, `none` for a non-nil error. -/
  DecodeSegment : String → Option Bytes
  /-- Go `json.Marshal` of the header `typ: JWT, alg: alg`. -/
  marshalHeader : String → Bytes
  /-- Go `json.Unmarshal` into the header map, then `Header["alg"].(string)`: `none` when
  decoding fails, `some none` when there is no string under `alg`. -/
  unmarshalHeader : Bytes → Option (Option String)
  /-- Go `json.Marshal` of the claims. -/
  marshalClaims : StandardClaims → Bytes
  /-- Go `json.Decoder.Decode` into a `StandardClaims`, `none` for a non-nil error. -/
  unmarshalClaims : Bytes → Option StandardClaims

/-- Go `hmac.New(h, key)`, `Write(msg)`, `Sum(nil)`: a key longer than a block is hashed, the
key is copied into a zeroed block, and the two padded blocks are hashed with the message. -/
def hmacSum (P : JwtPrims) (h : HashAlg) (key msg : Bytes) : Bytes :=
  let blocksize := h.blockSize
  let key := if key.length > blocksize then P.hashSum h key else key
  let block := (key ++ List.replicate (blocksize - key.length) 0).take blocksize
  let ipad := block.map (fun b => b ^^^ 0x36)
  let opad := block.map (fun b => b ^^^ 0x5c)
  P.hashSum h (opad ++ P.hashSum h (ipad ++ msg))

/-- The signing methods the library registers, seen from a caller whose key is a `[]byte`. -/
inductive SigningMethod where
  | HMAC (h : HashAlg)
  | notHMAC
deriving DecidableEq, Repr

/-- The library's `GetSigningMethod`. -/
def GetSigningMethod (alg : String) : Option SigningMethod :=
  if alg = "HS256" then some (.HMAC .SHA256)
  else if alg = "HS384" then some (.HMAC .SHA384)
  else if alg = "HS512" then some (.HMAC .SHA512)
  else if alg ∈ ["RS256", "RS384", "RS512", "ES256", "ES384", "ES512", "PS256", "PS384",
      "PS512", "none"] then some .notHMAC
  else none

/-- The library's `Method.Verify(signingString, signature, key)` for a `[]byte` key, `true` for
a nil error. The RSA, ECDSA and RSA-PSS methods reject the key type; `none` rejects every
key but its own marker. -/
def SigningMethod.Verify (P : JwtPrims) (m : SigningMethod) (signingString signature : String)
    (key : Bytes) : Bool :=
  match m with
  | .notHMAC => false
  | .HMAC h =>
    match P.DecodeSegment signature with
    | none => false
    | some sig => sig == hmacSum P h key (stringBytes signingString)

/-- Go `strings.Split(s, sep)` for a one-character separator, on the characters of `s`. -/
def splitChars (sep : Char) : List Char → List (List Char)
  | [] => [[]]
  | c :: cs =>
    if c = sep then [] :: splitChars sep cs
    else
      match splitChars sep cs with
      | [] => [[c]]
      | p :: ps => (c :: p) :: ps

/-- The library's `Token.SigningString` for the header of method `alg`. -/
def SigningString (P : JwtPrims) (alg : String) (claims : StandardClaims) : String :=
  P.EncodeSegment (P.marshalHeader alg) ++ "." ++ P.EncodeSegment (P.marshalClaims claims)

/-- The library's `NewWithClaims(SigningMethodHS256, claims).SignedString(key)` for a `[]byte`
key: the signing string, a dot, and the encoded HMAC-SHA256 of the signing string. -/
def SignedString (P : JwtPrims) (claims : StandardClaims) (key : Bytes) : Except String String :=
  let sstr := SigningString P "HS256" claims
  let sig := P.EncodeSegment (hmacSum P .SHA256 key (stringBytes sstr))
  .ok (sstr ++ "." ++ sig)

/-- The library's `ParseWithClaims(tokenString, &StandardClaims{}, keyFunc)` with a key
function that always returns `key`, when the library clock reads `now`: the decoded claims
when the returned error is nil (the token is then marked `Valid`), an error otherwise. -/
def ParseWithClaims (P : JwtPrims) (now : Time) (tokenString : String) (key : Bytes) :
    Except String StandardClaims :=
  match splitChars '.' tokenString.toList with
  | [p0, p1, p2] =>
    match P.DecodeSegment (String.mk p0) with
    | none => .error "malformed header segment"
    | some headerBytes =>
      match P.unmarshalHeader headerBytes with
      | none => .error "malformed header"
      | some header =>
        match P.DecodeSegment (String.mk p1) with
        | none => .error "malformed claims segment"
        | some claimBytes =>
          match P.unmarshalClaims claimBytes with
          | none => .error "malformed claims"
          | some claims =>
            match header with
            | none => .error "signing method (alg) is unspecified."
            | some alg =>
              match GetSigningMethod alg with
              | none => .error "signing method (alg) is unavailable."
              | some method =>
                let claimsOk := claims.Valid now.Unix
                let signatureOk :=
                  method.Verify P (String.mk p0 ++ "." ++ String.mk p1) (String.mk p2) key
                if claimsOk && signatureOk then .ok claims else .error "token is invalid"
  | _ => .error "token contains an invalid number of segments"

/-! ## handlers/auth.go and middleware/jwt.go -/

/-- The claims `HandleGetToken` signs when the clock reads `now`. -/
def HandleGetToken.claims (now : Time) : StandardClaims :=
  let expirationTime := now.Add (24 * Hour)
  StandardClaims.withExpiresAt expirationTime.Unix

/-- The token string `HandleGetToken` produces when the clock reads `now`. -/
def HandleGetToken.tokenString (P : JwtPrims) (now : Time) (jwtKey : Bytes) :
    Except String String :=
  SignedString P (HandleGetToken.claims now) jwtKey

/-- Go `HandleGetToken(jwtKey)` applied to one request when the clock reads `now`; `encode` is
the JSON encoding of a `map[string]string`. -/
def HandleGetToken (P : JwtPrims) (encode : List (String × String) → String) (now : Time)
    (jwtKey : Bytes) (_r : Request) : Response :=
  match HandleGetToken.tokenString P now jwtKey with
  | .error _ => httpError "Error generating token" StatusInternalServerError
  | .ok tokenString =>
    { status := StatusOK, contentType := "application/json",
      body := encode [("token", tokenString)] }

/-- Go `strings.TrimPrefix(s, pre)`. -/
def TrimPrefix (s pre : String) : String :=
  if pre.toList.isPrefixOf s.toList then String.mk (s.toList.drop pre.toList.length) else s

/-- Go `WithJWTAuth(next, jwtKey)` applied to one request. `parse tokenStr jwtKey` is the
library call `jwt.ParseWithClaims(tokenStr, claims, keyFunc)` with the key function that
returns `jwtKey`: `Except.ok` when the returned error is nil and the token is `Valid`. -/
def WithJWTAuth {Place F : Type} (parse : String → Bytes → Except String StandardClaims)
    (next : Request → List (Call Place F) × Response) (jwtKey : Bytes) (r : Request) :
    List (Call Place F) × Response :=
  let tokenStr := r.authorization
  if tokenStr = "" then
    ([], httpError "Missing token" StatusUnauthorized)
  else
    let tokenStr := TrimPrefix tokenStr "Bearer "
    match parse tokenStr jwtKey with
    | .error _ => ([], httpError "Invalid token" StatusUnauthorized)
    | .ok _ => (Call.next r :: (next r).1, (next r).2)

/-! ## store/elasticsearch.go: provisioning and loading -/

/-- An `*esapi.Response`: the HTTP status, the decoded body, and the text `res.String()`
prints. -/
structure EsResponse (B : Type) where
  StatusCode : Nat
  Body : B
  text : String

/-- The client's `res.IsError()`: the status is above 299. -/
def EsResponse.IsError {B : Type} (res : EsResponse B) : Bool := decide (res.StatusCode > 299)

/-- One entry of the `items` array of a `_bulk` reply: the document id, the status of the
operation, and the error object when the operation failed. -/
structure BulkItem where
  id : String
  status : Nat
  error : Option String
deriving DecidableEq, Repr

/-- The decoded body of a `_bulk` reply: the `errors` flag and the per-operation items. -/
structure BulkReply where
  errors : Bool
  items : List BulkItem
deriving DecidableEq, Repr

/-- A `_bulk` reply reports a failure for at least one item. -/
def BulkReply.reportsItemFailure (b : BulkReply) : Bool :=
  b.errors || b.items.any (fun item => item.error.isSome)

/-- The calls of `*elasticsearch.Client` the source makes; `Except.error` is a transport
error. `IndicesDelete` takes the index names, `IndicesCreate` the index name and the request
body, `Bulk` the request body. -/
structure EsClient where
  IndicesDelete : List String → Except String (EsResponse String)
  IndicesCreate : String → String → Except String (EsResponse String)
  Bulk : String → Except String (EsResponse BulkReply)

/-- Go `DeleteIndexIfExists`: `none` is a nil error. -/
def DeleteIndexIfExists (es : EsClient) (indexName : String) : Option String :=
  match es.IndicesDelete [indexName] with
  | .error err => some ("error deleting index: " ++ err)
  | .ok res =>
    if res.IsError then some ("error deleting index: " ++ res.text) else none

/-- The mapping `CreateIndex` sends. -/
def CreateIndex.mapping : String :=
  "\x7b\"mappings\": \x7b\"properties\": \x7b" ++
  "\"id\": \x7b\"type\": \"keyword\"\x7d, " ++
  "\"name\": \x7b\"type\": \"text\"\x7d, " ++
  "\"address\": \x7b\"type\": \"text\"\x7d, " ++
  "\"phone\": \x7b\"type\": \"text\"\x7d, " ++
  "\"location\": \x7b\"type\": \"geo_point\"\x7d\x7d\x7d\x7d"

/-- Go `CreateIndex`: `none` is a nil error. -/
def CreateIndex (es : EsClient) : Option String :=
  match es.IndicesCreate "places" CreateIndex.mapping with
  | .error err => some ("error creating index: " ++ err)
  | .ok res =>
    if res.IsError then some ("error creating index: " ++ res.text) else none

/-- Go `parseFloat`: the value `strconv.ParseFloat` returns, its error dropped. -/
def parseFloat {F : Type} (ParseFloat : FloatParser F) (s : String) : F :=
  (ParseFloat s).1

/-- The `location` map of a document. -/
structure Location (F : Type) where
  lat : F
  lon : F
deriving DecidableEq, Repr

/-- The document `LoadData` builds for one record. -/
structure Doc (F : Type) where
  id : String
  name : String
  address : String
  phone : String
  location : Location F
deriving DecidableEq, Repr

/-- The document of one record; `none` is the run-time panic of an index out of range. -/
def LoadData.doc {F : Type} (ParseFloat : FloatParser F) (record : List String) :
    Option (Doc F) := do
  let id ← record[0]?
  let name ← record[1]?
  let address ← record[2]?
  let phone ← record[3]?
  let lat ← record[5]?
  let lon ← record[4]?
  pure { id := id, name := name, address := address, phone := phone,
         location := { lat := parseFloat ParseFloat lat, lon := parseFloat ParseFloat lon } }

/-- The action line `fmt.Sprintf` builds for the document id `id`. -/
def LoadData.meta (id : String) : String :=
  "\x7b \"index\" : \x7b \"_index\" : \"places\", \"_id\" : \"" ++ id ++ "\" \x7d \x7d\n"

/-- What one record adds to the buffer: the action line, the marshalled document and a
newline. `Marshal` is `json.Marshal`, whose error the source drops: the data is then empty. -/
def LoadData.entry {F : Type} (ParseFloat : FloatParser F) (Marshal : Doc F → Except String String)
    (record : List String) : Option String := do
  let doc ← LoadData.doc ParseFloat record
  let «meta» ← (record[0]?).map LoadData.meta
  let data := match Marshal doc with
    | .ok data => data
    | .error _ => ""
  pure («meta» ++ data ++ "\n")

/-- The loop of `LoadData` from index `i` on, appending to `buffer`; `none` is a panic. -/
def LoadData.loop {F : Type} (ParseFloat : FloatParser F) (Marshal : Doc F → Except String String) :
    List (List String) → Nat → String → Option String
  | [], _, buffer => some buffer
  | record :: rest, i, buffer =>
    if i = 0 then LoadData.loop ParseFloat Marshal rest (i + 1) buffer
    else
      match LoadData.entry ParseFloat Marshal record with
      | none => none
      | some e => LoadData.loop ParseFloat Marshal rest (i + 1) (buffer ++ e)

/-- The bulk request body `LoadData` builds from the parsed records; `none` is a panic. -/
def LoadData.buffer {F : Type} (ParseFloat : FloatParser F) (Marshal : Doc F → Except String String)
    (records : List (List String)) : Option String :=
  LoadData.loop ParseFloat Marshal records 0 ""

/-- How a Go function that returns an `error` ends: it returns (`none` is nil) or panics. -/
inductive Outcome where
  | returned (err : Option String)
  | panicked
deriving DecidableEq, Repr

/-- The file system as `LoadData` uses it: `Open` is `os.Open`, `ReadAll` the tab-separated
`csv.Reader.ReadAll` over the opened file. -/
structure Files (File : Type) where
  Open : String → Except String File
  ReadAll : File → Except String (List (List String))

/-- Go `LoadData`. -/
def LoadData {F File : Type} (ParseFloat : FloatParser F) (Marshal : Doc F → Except String String)
    (fs : Files File) (es : EsClient) (filePath : String) : Outcome :=
  match fs.Open filePath with
  | .error err => .returned (some ("error opening file: " ++ err))
  | .ok file =>
    match fs.ReadAll file with
    | .error err => .returned (some ("error reading CSV: " ++ err))
    | .ok records =>
      match LoadData.buffer ParseFloat Marshal records with
      | none => .panicked
      | some buffer =>
        match es.Bulk buffer with
        | .error err => .returned (some ("error executing bulk request: " ++ err))
        | .ok res =>
          if res.IsError then .returned (some ("bulk request error: " ++ res.text))
          else .returned none

/-! ## main.go: provisioning before the listener starts -/

/-- How the start of `main` ends: `log.Fatalf` with a message, a panic, or the routes are
registered and the listener starts. -/
inductive Startup where
  | fatal (msg : String)
  | panicked
  | listening
deriving DecidableEq, Repr

/-- The provisioning steps of Go `main`. -/
def main.provision {F File : Type} (ParseFloat : FloatParser F)
    (Marshal : Doc F → Except String String) (fs : Files File) (es : EsClient) : Startup :=
  match DeleteIndexIfExists es "places" with
  | some err => .fatal ("Error deleting index: " ++ err)
  | none =>
    match CreateIndex es with
    | some err => .fatal ("Error creating index: " ++ err)
    | none =>
      match LoadData ParseFloat Marshal fs es "data/data.csv" with
      | .panicked => .panicked
      | .returned (some err) => .fatal ("Error loading data: " ++ err)
      | .returned none => .listening

/-! ## Concrete collaborators used to evaluate the handlers -/

/-- A store whose listing succeeds with the places `ps` and the total `total`. -/
def constStore (ps : List String) (total : Int) : Store String Int :=
  { GetPlaces := fun _ _ => .ok (ps, total), GetNearestPlaces := fun _ _ _ => .ok ps }

/-- A renderer that replies 200 with an empty body. -/
def blankRender : List String → Int → Int → Int → Response :=
  fun _ _ _ _ => { status := StatusOK, contentType := "", body := "" }

/-- A request with the given query string and no `Authorization` header. -/
def queryRequest (query : List (String × String)) : Request :=
  { query := query, authorization := "" }

/-- A float parser for evaluation, over the integers: the text must be a decimal integer,
anything else is a syntax error with the value 0. -/
def intParser : FloatParser Int := fun s =>
  match Atoi s with
  | some n => (n, none)
  | none => (0, some NumError.ErrSyntax)

/-- A JSON encoder for evaluation: it never fails and only records the number of keys. -/
def keyCountEncode : JObject String → Option String :=
  fun obj => some ("keys=" ++ toString obj.length)

/-- A document marshaller for evaluation: the fields joined by bars. -/
def barMarshal : Doc Int → Except String String :=
  fun d => .ok (d.id ++ "|" ++ d.name ++ "|" ++ d.address ++ "|" ++ d.phone ++ "|"
    ++ toString d.location.lat ++ "|" ++ toString d.location.lon)

/-- The document the data-load contract prescribes for a row: fields 0 to 3 are the id, the
name, the address and the phone, field 5 is the latitude and field 4 the longitude, each
coordinate being the value the float parser returns for the cell. -/
def LoadData.rowDoc {F : Type} (ParseFloat : FloatParser F) (r : List String) : Doc F :=
  { id := r.getD 0 "", name := r.getD 1 "", address := r.getD 2 "", phone := r.getD 3 "",
    location := { lat := (ParseFloat (r.getD 5 "")).1, lon := (ParseFloat (r.getD 4 "")).1 } }

/-- The data `json.Marshal` hands back to `LoadData`: empty when it reports an error. -/
def LoadData.data {F : Type} (Marshal : Doc F → Except String String) (d : Doc F) : String :=
  match Marshal d with
  | .ok data => data
  | .error _ => ""

/-- The concatenation of the pieces of a buffer, in order. -/
def concatAll : List String → String
  | [] => ""
  | e :: es => e ++ concatAll es

/-- A three-row file: a header and two data rows, the second with a malformed longitude. -/
def sampleRecords : List (List String) :=
  [["ID", "Name", "Address", "Phone", "Longitude", "Latitude"],
   ["7", "Cafe", "Main St", "555", "37", "55"],
   ["8", "Bar", "Side St", "556", "east", "56"]]

/-- A file system with the one file `data/data.csv` holding `records`. -/
def oneFile (records : List (List String)) : Files Unit :=
  { Open := fun path => if path = "data/data.csv" then .ok () else .error "no such file",
    ReadAll := fun _ => .ok records }

/-- A cluster on which the index `places` does not exist yet: deleting it is answered 404,
creating it and loading into it succeed. -/
def freshCluster : EsClient :=
  { IndicesDelete := fun _ =>
      .ok { StatusCode := 404, Body := "index_not_found_exception",
            text := "[404 Not Found] index_not_found_exception" },
    IndicesCreate := fun _ _ =>
      .ok { StatusCode := 200, Body := "acknowledged", text := "[200 OK] acknowledged" },
    Bulk := fun _ =>
      .ok { StatusCode := 200, Body := { errors := false, items := [] }, text := "[200 OK]" } }

/-- A `_bulk` reply with status 200 whose body flags the second of two items as failed. -/
def itemFailureReply : EsResponse BulkReply :=
  { StatusCode := 200,
    Body := { errors := true,
              items := [{ id := "7", status := 201, error := none },
                        { id := "8", status := 400, error := some "mapper_parsing_exception" }] },
    text := "[200 OK]" }

/-- A cluster that answers every `_bulk` call with `itemFailureReply`. -/
def itemFailureCluster : EsClient :=
  { IndicesDelete := fun _ =>
      .ok { StatusCode := 200, Body := "acknowledged", text := "[200 OK] acknowledged" },
    IndicesCreate := fun _ _ =>
      .ok { StatusCode := 200, Body := "acknowledged", text := "[200 OK] acknowledged" },
    Bulk := fun _ => .ok itemFailureReply }

/-- A cluster whose `_bulk` call is answered with the given status, or fails in transport. -/
def bulkCluster (reply : Except String Nat) : EsClient :=
  { IndicesDelete := fun _ =>
      .ok { StatusCode := 200, Body := "acknowledged", text := "[200 OK] acknowledged" },
    IndicesCreate := fun _ _ =>
      .ok { StatusCode := 200, Body := "acknowledged", text := "[200 OK] acknowledged" },
    Bulk := fun _ =>
      match reply with
      | .error err => .error err
      | .ok status =>
        .ok { StatusCode := status, Body := { errors := false, items := [] }, text := "" } }

/-! ## Assumptions on the primitives of the token library, and primitives for evaluation -/

/-- What the theorems on issued tokens need from the primitives: a segment decodes back to
the bytes it encodes and holds neither a dot nor a blank (base64url), and the JSON codecs
return the `HS256` header and an expiry-only claim set unchanged. -/
structure JwtPrims.Lawful (P : JwtPrims) : Prop where
  decode_encode : ∀ bs, P.DecodeSegment (P.EncodeSegment bs) = some bs
  segment_chars : ∀ bs, ∀ c ∈ (P.EncodeSegment bs).toList, c ≠ '.' ∧ c ≠ ' '
  header_roundtrip : P.unmarshalHeader (P.marshalHeader "HS256") = some (some "HS256")
  claims_roundtrip : ∀ exp, P.unmarshalClaims (P.marshalClaims (StandardClaims.withExpiresAt exp))
    = some (StandardClaims.withExpiresAt exp)

/-- Segment encoding for evaluation: a byte `b` is `b` letters `x` followed by a `y`. -/
def unarySegment : Bytes → List Char
  | [] => []
  | b :: bs => List.replicate b.toNat 'x' ++ 'y' :: unarySegment bs

/-- Decoder of `unarySegment`; `n` counts the letters `x` read since the last `y`. -/
def unaryDecode : List Char → Nat → Option Bytes
  | [], 0 => some []
  | [], _ + 1 => none
  | c :: cs, n =>
    if c = 'x' then unaryDecode cs (n + 1)
    else if c = 'y' then (unaryDecode cs 0).map (fun bs => UInt8.ofNat n :: bs)
    else none

/-- Claims encoding for evaluation: a sign byte, then as many bytes as the magnitude of the
expiry time. -/
def unaryClaims (c : StandardClaims) : Bytes :=
  (if c.ExpiresAt < 0 then 1 else 0) :: List.replicate c.ExpiresAt.natAbs 2

/-- Decoder of `unaryClaims`. -/
def unaryClaimsDecode : Bytes → Option StandardClaims
  | [] => none
  | s :: rest =>
    some (StandardClaims.withExpiresAt (if s = 1 then -(rest.length : Int) else rest.length))

/-- Primitives for evaluation: unary codecs and the identity in place of the hash. -/
def unaryPrims : JwtPrims :=
  { hashSum := fun _ bs => bs,
    EncodeSegment := fun bs => String.mk (unarySegment bs),
    DecodeSegment := fun s => unaryDecode s.toList 0,
    marshalHeader := fun alg => stringBytes alg,
    unmarshalHeader := fun bs =>
      if bs = stringBytes "HS256" then some (some "HS256") else none,
    marshalClaims := unaryClaims,
    unmarshalClaims := unaryClaimsDecode }

/-- A wrapped handler for evaluation: it makes no call and replies 200. -/
def okHandler : Request → List (Call String Int) × Response :=
  fun _ => ([], { status := StatusOK, contentType := "text/plain", body := "ok" })

/-- A request that carries `header` as its `Authorization` header. -/
def authRequest (header : String) : Request :=
  { query := [], authorization := header }

/-! ## The float routines of the standard library, and floats for evaluation -/

/-- What `LoadData` reaches of the Go standard library on a `float64`: the value zero, the
value `+Inf`, `strconv.ParseFloat(s, 64)` and `json.Marshal` of a document. -/
structure FloatLib (F : Type) where
  zero : F
  posInf : F
  ParseFloat : FloatParser F
  Marshal : Doc F → Except String String

/-- The documented behaviour of the two routines that the theorems on the bulk body use:
the text `0` parses to zero, a syntax error comes with the value zero, the text `1e400` is
out of the `float64` range and comes with `+Inf` and a range error, zero is not `+Inf`, and
`json.Marshal` reports an error for a document with an infinite coordinate. -/
structure FloatLib.Lawful {F : Type} (L : FloatLib F) : Prop where
  parse_zero : L.ParseFloat "0" = (L.zero, none)
  syntax_zero : ∀ s v, L.ParseFloat s = (v, some NumError.ErrSyntax) → v = L.zero
  range_inf : L.ParseFloat "1e400" = (L.posInf, some NumError.ErrRange)
  zero_ne_inf : L.zero ≠ L.posInf
  marshal_inf : ∀ d : Doc F, d.location.lat = L.posInf ∨ d.location.lon = L.posInf →
    ∃ err, L.Marshal d = .error err

/-- Floats for evaluation: the integers and `+Inf`. -/
inductive EvalFloat where
  | finite (n : Int)
  | inf
deriving DecidableEq, Repr

/-- The text of a float for evaluation. -/
def EvalFloat.text : EvalFloat → String
  | .finite n => toString n
  | .inf => "+Inf"

/-- A float parser for evaluation: a decimal integer is parsed, the text `1e400` is out of
range, and anything else is a syntax error with the value 0. -/
def evalParseFloat : FloatParser EvalFloat := fun s =>
  if s = "1e400" then (EvalFloat.inf, some NumError.ErrRange)
  else
    match Atoi s with
    | some n => (EvalFloat.finite n, none)
    | none => (EvalFloat.finite 0, some NumError.ErrSyntax)

/-- A document marshaller for evaluation: an infinite coordinate is an error, as it is for
`json.Marshal`; otherwise the fields are joined by bars. -/
def evalMarshal : Doc EvalFloat → Except String String := fun d =>
  if d.location.lat = EvalFloat.inf ∨ d.location.lon = EvalFloat.inf then
    .error "json: unsupported value: +Inf"
  else
    .ok (d.id ++ "|" ++ d.name ++ "|" ++ d.address ++ "|" ++ d.phone ++ "|"
      ++ d.location.lat.text ++ "|" ++ d.location.lon.text)

/-- The float routines for evaluation. -/
def evalFloatLib : FloatLib EvalFloat :=
  { zero := EvalFloat.finite 0, posInf := EvalFloat.inf, ParseFloat := evalParseFloat,
    Marshal := evalMarshal }

/-- A first row and one data row whose longitude cell `1e400` is out of the `float64` range. -/
def outOfRangeRecords : List (List String) :=
  [["ID", "Name", "Address", "Phone", "Longitude", "Latitude"],
   ["9", "Pub", "High St", "557", "1e400", "55"]]

/-! ## Machine arithmetic -/

theorem wrap64_of_inInt64 {x : Int} (h : InInt64 x) : wrap64 x = x := by
  unfold InInt64 at h
  unfold wrap64
  omega

theorem wrap64_inInt64 (x : Int) : InInt64 (wrap64 x) := by
  unfold InInt64 wrap64
  omega

theorem wrap64_sub_wrap64_add (a b c : Int) :
    wrap64 (wrap64 (a + b) - c) = wrap64 (a + b - c) := by
  unfold wrap64
  omega

/-- The rounded-up quotient by ten is the quotient of the sum with nine. -/
theorem ceil_div_ten (t : Int) : ⌈(t : ℚ) / 10⌉ = (t + 9) / 10 := by
  rw [Int.ceil_eq_iff]
  constructor
  · rw [lt_div_iff₀ (by norm_num : (0 : ℚ) < 10)]
    have : ((t + 9) / 10 - 1) * 10 < t := by omega
    exact_mod_cast this
  · rw [div_le_iff₀ (by norm_num : (0 : ℚ) < 10)]
    have : t ≤ (t + 9) / 10 * 10 := by omega
    exact_mod_cast this

/-- The source's `(total + size - 1) / size` for `size = 10`, as long as `total + 9` fits. -/
theorem lastPage_eq {total : Int} (h0 : 0 ≤ total) (hmax : total ≤ 2 ^ 63 - 10) :
    div64 (sub64 (add64 total 10) 1) 10 = (total + 9) / 10 := by
  unfold div64 sub64 add64
  rw [wrap64_sub_wrap64_add]
  have h9 : total + 10 - 1 = total + 9 := by ring
  rw [h9, @wrap64_of_inInt64 (total + 9) (by unfold InInt64; omega)]
  rw [Int.tdiv_eq_ediv (by omega) (by norm_num)]
  apply wrap64_of_inInt64
  unfold InInt64
  omega

/-- Past the last total for which `total + 9` fits, the source's last page is negative. -/
theorem lastPage_neg_of_overflow {total : Int} (hin : InInt64 total)
    (hbig : 2 ^ 63 - 10 < total) : div64 (sub64 (add64 total 10) 1) 10 < 0 := by
  unfold InInt64 at hin
  unfold div64 sub64 add64
  rw [wrap64_sub_wrap64_add]
  have h9 : total + 10 - 1 = total + 9 := by ring
  rw [h9]
  have hw : wrap64 (total + 9) = total + 9 - 2 ^ 64 := by
    unfold wrap64
    omega
  rw [hw]
  have hq : Int.tdiv (total + 9 - 2 ^ 64) 10 = -((2 ^ 64 - total - 9) / 10) := by
    have : total + 9 - 2 ^ 64 = -(2 ^ 64 - total - 9) := by ring
    rw [this, Int.neg_tdiv, Int.tdiv_eq_ediv (by omega) (by norm_num)]
  rw [hq]
  rw [wrap64_of_inInt64 (by unfold InInt64; omega)]
  omega

theorem Atoi_value_inInt64 {neg : Bool} {ds : List Char} {n : Int}
    (h : Atoi.value neg ds = some n) : InInt64 n := by
  unfold Atoi.value at h
  split at h
  · cases h
  · split at h
    · cases h
    · rename_i d _
      dsimp only at h
      generalize (if neg = true then -(d : Int) else (d : Int)) = v at h
      split at h
      · cases h
        assumption
      · cases h

theorem Atoi_inInt64 {s : String} {n : Int} (h : Atoi s = some n) : InInt64 n :=
  Atoi_value_inInt64 h

/-! ## handlers/places.go: the page checks of `HandleRequest` -/

theorem HandleRequest_atoi_none {Place F : Type} (req : Request) (store : Store Place F)
    (renderFunc : List Place → Int → Int → Int → Response)
    (h : Atoi (HandleRequest.page req) = none) :
    HandleRequest req store renderFunc
      = ([], httpError (invalidPageBody (HandleRequest.page req)) StatusBadRequest) := by
  unfold HandleRequest
  simp only [h]

theorem HandleRequest_lt_one {Place F : Type} (req : Request) (store : Store Place F)
    (renderFunc : List Place → Int → Int → Int → Response) {n : Int}
    (h : Atoi (HandleRequest.page req) = some n) (hn : n < 1) :
    HandleRequest req store renderFunc
      = ([], httpError (invalidPageBody (HandleRequest.page req)) StatusBadRequest) := by
  unfold HandleRequest
  simp only [h, hn, if_true]

theorem HandleRequest_store_error {Place F : Type} (req : Request) (store : Store Place F)
    (renderFunc : List Place → Int → Int → Int → Response) {n : Int} {err : String}
    (h : Atoi (HandleRequest.page req) = some n) (hn : 1 ≤ n)
    (hs : store.GetPlaces 10 (mul64 (sub64 n 1) 10) = .error err) :
    HandleRequest req store renderFunc
      = ([Call.getPlaces 10 (mul64 (sub64 n 1) 10)],
          httpError "Error fetching places" StatusInternalServerError) := by
  unfold HandleRequest
  have hn' : ¬ n < 1 := by omega
  simp only [h, hn', if_false, hs]

theorem HandleRequest_store_ok {Place F : Type} (req : Request) (store : Store Place F)
    (renderFunc : List Place → Int → Int → Int → Response) {n total : Int}
    {places : List Place}
    (h : Atoi (HandleRequest.page req) = some n) (hn : 1 ≤ n)
    (hs : store.GetPlaces 10 (mul64 (sub64 n 1) 10) = .ok (places, total)) :
    HandleRequest req store renderFunc
      = if n > div64 (sub64 (add64 total 10) 1) 10 then
          ([Call.getPlaces 10 (mul64 (sub64 n 1) 10)],
            httpError (invalidPageBody (HandleRequest.page req)) StatusBadRequest)
        else
          ([Call.getPlaces 10 (mul64 (sub64 n 1) 10), Call.render places total n 10],
            renderFunc places total n 10) := by
  unfold HandleRequest
  have hn' : ¬ n < 1 := by omega
  simp only [h, hn', if_false, hs]

/-- C1. A non-empty `page` value that `strconv.Atoi` rejects, or that parses to a number
below 1, is answered with status 400 and a body that carries the value verbatim, and no call
to the store or the renderer is made. An empty (or absent) `page` value is handled exactly
as the value `"1"` is: it passes this check and the first page is fetched from the store. -/
theorem HandleRequest_invalid_page_rejected {Place F : Type} (req : Request)
    (store : Store Place F) (renderFunc : List Place → Int → Int → Int → Response) :
    (req.queryGet "page" ≠ "" →
      (Atoi (req.queryGet "page") = none ∨ ∃ n, Atoi (req.queryGet "page") = some n ∧ n < 1) →
        (HandleRequest req store renderFunc).1 = [] ∧
        (HandleRequest req store renderFunc).2.status = 400 ∧
        (HandleRequest req store renderFunc).2.body
          = "\x7b\"error\": \"Invalid 'page' value: '" ++ req.queryGet "page" ++ "'\"\x7d\n") ∧
    (req.queryGet "page" = "" →
      HandleRequest req store renderFunc
        = HandleRequest { req with query := [("page", "1")] } store renderFunc ∧
      (HandleRequest req store renderFunc).1.head? = some (Call.getPlaces 10 0)) := by
  constructor
  · intro hne hbad
    have hpage : HandleRequest.page req = req.queryGet "page" := by
      unfold HandleRequest.page
      simp only [hne, if_false]
    have hres : HandleRequest req store renderFunc
        = ([], httpError (invalidPageBody (req.queryGet "page")) StatusBadRequest) := by
      rcases hbad with hnone | ⟨n, hsome, hlt⟩
      · rw [HandleRequest_atoi_none req store renderFunc (by rw [hpage]; exact hnone), hpage]
      · rw [HandleRequest_lt_one req store renderFunc (by rw [hpage]; exact hsome) hlt, hpage]
    rw [hres]
    refine ⟨rfl, rfl, ?_⟩
    simp only [httpError, invalidPageBody, String.append_assoc]
    rfl
  · intro hempty
    have hpage : HandleRequest.page req = "1" := by
      unfold HandleRequest.page
      simp only [hempty, if_true]
    have hatoi : Atoi (HandleRequest.page req) = some 1 := by
      rw [hpage]
      decide
    have hpage1 : HandleRequest.page { req with query := [("page", "1")] } = "1" := by
      rfl
    have hatoi1 : Atoi (HandleRequest.page { req with query := [("page", "1")] }) = some 1 := by
      rw [hpage1]
      decide
    have hfrom : mul64 (sub64 1 1) 10 = 0 := by decide
    cases hs : store.GetPlaces 10 (mul64 (sub64 1 1) 10) with
    | error err =>
      rw [HandleRequest_store_error req store renderFunc hatoi (by norm_num) hs,
        HandleRequest_store_error _ store renderFunc hatoi1 (by norm_num) hs, hfrom]
      exact ⟨rfl, rfl⟩
    | ok res =>
      obtain ⟨places, total⟩ := res
      rw [HandleRequest_store_ok req store renderFunc hatoi (by norm_num) hs,
        HandleRequest_store_ok _ store renderFunc hatoi1 (by norm_num) hs, hfrom, hpage, hpage1]
      refine ⟨rfl, ?_⟩
      split <;> rfl

/-- C1, evaluated: `page=abc` and `page=0` are answered 400 without any call, and a request
without `page` fetches the first page. -/
theorem HandleRequest_invalid_page_rejected_witness :
    HandleRequest (queryRequest [("page", "abc")]) (constStore ["a"] 1) blankRender
      = ([], httpError "\x7b\"error\": \"Invalid 'page' value: 'abc'\"\x7d" 400) ∧
    HandleRequest (queryRequest [("page", "0")]) (constStore ["a"] 1) blankRender
      = ([], httpError "\x7b\"error\": \"Invalid 'page' value: '0'\"\x7d" 400) ∧
    (HandleRequest (queryRequest []) (constStore ["a"] 1) blankRender).1.head?
      = some (Call.getPlaces 10 0) :=
  ⟨by decide, by decide,
    ((HandleRequest_invalid_page_rejected (queryRequest []) (constStore ["a"] 1)
      blankRender).2 (by decide)).2⟩

/-- C2, refuted as stated. A store that reports the total `2^63 - 1` makes the source's
`total + size - 1` wrap around: page 1 is answered with status 400 and the renderer is not
called, although page 1 is not beyond the rounded-up quotient of the total by ten. -/
theorem HandleRequest_last_page_overflow :
    HandleRequest (queryRequest [("page", "1")]) (constStore ["a"] 9223372036854775807)
        blankRender
      = ([Call.getPlaces 10 0],
          httpError "\x7b\"error\": \"Invalid 'page' value: '1'\"\x7d" 400) ∧
    (0 : Int) ≤ 9223372036854775807 ∧
    ¬ ((1 : Int) > ⌈((9223372036854775807 : Int) : ℚ) / 10⌉) := by
  refine ⟨by decide, by norm_num, ?_⟩
  rw [ceil_div_ten]
  norm_num

/-- C2, amended. For a page number of at least 1 and a store that succeeds with a total in
`[0, 2^63 - 10]`, the source's last page is the total divided by ten and rounded up; the
reply is 400, with the store call but no renderer call, exactly when the page number exceeds
it, whatever the places are, and otherwise the renderer is called once with the places, the
total, the page number and 10, and its reply is the reply. When the total is 0 every page is
answered 400. -/
theorem HandleRequest_last_page_gate {Place F : Type} (req : Request) (store : Store Place F)
    (renderFunc : List Place → Int → Int → Int → Response) (n total : Int)
    (places : List Place)
    (hpage : Atoi (HandleRequest.page req) = some n) (hn : 1 ≤ n)
    (hstore : store.GetPlaces 10 (mul64 (sub64 n 1) 10) = .ok (places, total))
    (h0 : 0 ≤ total) (hmax : total ≤ 2 ^ 63 - 10) :
    div64 (sub64 (add64 total 10) 1) 10 = ⌈(total : ℚ) / 10⌉ ∧
    (n > ⌈(total : ℚ) / 10⌉ →
      HandleRequest req store renderFunc
        = ([Call.getPlaces 10 (mul64 (sub64 n 1) 10)],
            httpError (invalidPageBody (HandleRequest.page req)) 400)) ∧
    (¬ n > ⌈(total : ℚ) / 10⌉ →
      HandleRequest req store renderFunc
        = ([Call.getPlaces 10 (mul64 (sub64 n 1) 10), Call.render places total n 10],
            renderFunc places total n 10)) ∧
    (total = 0 →
      HandleRequest req store renderFunc
        = ([Call.getPlaces 10 (mul64 (sub64 n 1) 10)],
            httpError (invalidPageBody (HandleRequest.page req)) 400)) := by
  have hlast : div64 (sub64 (add64 total 10) 1) 10 = ⌈(total : ℚ) / 10⌉ := by
    rw [lastPage_eq h0 hmax, ceil_div_ten]
  have hres := HandleRequest_store_ok req store renderFunc hpage hn hstore
  rw [hlast] at hres
  refine ⟨hlast, ?_, ?_, ?_⟩
  · intro hgt
    rw [hres, if_pos hgt]
    rfl
  · intro hle
    rw [hres, if_neg hle]
  · intro hzero
    have hgt : n > ⌈(total : ℚ) / 10⌉ := by
      rw [ceil_div_ten, hzero]
      norm_num
      omega
    rw [hres, if_pos hgt]
    rfl

/-- C2, evaluated: with 25 places page 3 is rendered and page 4 is answered 400. -/
theorem HandleRequest_last_page_gate_witness :
    HandleRequest (queryRequest [("page", "3")]) (constStore ["a"] 25) blankRender
      = ([Call.getPlaces 10 20, Call.render ["a"] 25 3 10], blankRender ["a"] 25 3 10) ∧
    HandleRequest (queryRequest [("page", "4")]) (constStore ["a"] 25) blankRender
      = ([Call.getPlaces 10 30],
          httpError (invalidPageBody "4") 400) := by
  have h3 := HandleRequest_last_page_gate (queryRequest [("page", "3")]) (constStore ["a"] 25)
    blankRender 3 25 ["a"] (by decide) (by decide) (by rfl) (by decide) (by decide)
  have h4 := HandleRequest_last_page_gate (queryRequest [("page", "4")]) (constStore ["a"] 25)
    blankRender 4 25 ["a"] (by decide) (by decide) (by rfl) (by decide) (by decide)
  have hc : ⌈((25 : Int) : ℚ) / 10⌉ = 3 := by
    rw [ceil_div_ten]
    norm_num
  refine ⟨?_, ?_⟩
  · have := h3.2.2.1 (by rw [hc]; decide)
    simpa using this
  · have := h4.2.1 (by rw [hc]; decide)
    simpa using this

/-! ## handlers/places.go: the object `RenderJSON` builds -/

/-- The keys of `RenderJSON`'s object, whatever the machine arithmetic does. -/
theorem RenderJSON_response_get {Place : Type} (places : List Place) (total page size : Int) :
    (RenderJSON.response places total page size).get? "name" = some (JValue.str "Places") ∧
    (RenderJSON.response places total page size).get? "total" = some (JValue.num total) ∧
    (RenderJSON.response places total page size).get? "places"
      = some (JValue.places places) ∧
    (RenderJSON.response places total page size).get? "last_page"
      = some (JValue.num (div64 (sub64 (add64 total size) 1) size)) ∧
    (RenderJSON.response places total page size).get? "prev_page"
      = (if page > 1 then some (JValue.num (sub64 page 1)) else none) ∧
    (RenderJSON.response places total page size).get? "next_page"
      = (if mul64 page size < total then some (JValue.num (add64 page 1)) else none) := by
  unfold RenderJSON.response
  by_cases h1 : page > 1 <;> by_cases h2 : mul64 page size < total <;>
    simp [h1, h2, JObject.set, JObject.get?]

/-- C3, refuted as stated. For the page number `2^63 - 1` and a total of 0 the source's
`pageNumber*size` wraps around to -10: the object carries `next_page`, with the value
`-2^63`, although ten times the page number is not below the total. -/
theorem RenderJSON_next_page_overflow :
    (RenderJSON.response (["a"] : List String) 0 9223372036854775807 10).get? "next_page"
      = some (JValue.num (-9223372036854775808)) ∧
    ¬ ((9223372036854775807 : Int) * 10 < 0) := by
  decide

/-- C3, amended. For every places list, every total and every page number that a Go `int`
holds, the object `RenderJSON` builds with size 10 has the keys `name`, `total`, `places` and
`last_page`; it has `prev_page`, with the value `page - 1`, exactly when `page > 1`; when ten
times the page number fits a 64-bit `int` it has `next_page`, with the value `page + 1`,
exactly when `page * 10 < total`; and it has neither when `page = 1` and `total ≤ 10`. -/
theorem RenderJSON_envelope {Place : Type} (places : List Place) (total page : Int)
    (hpage : InInt64 page) :
    (RenderJSON.response places total page 10).get? "name" = some (JValue.str "Places") ∧
    (RenderJSON.response places total page 10).get? "total" = some (JValue.num total) ∧
    (RenderJSON.response places total page 10).get? "places" = some (JValue.places places) ∧
    ((RenderJSON.response places total page 10).get? "last_page").isSome = true ∧
    (RenderJSON.response places total page 10).get? "prev_page"
      = (if page > 1 then some (JValue.num (page - 1)) else none) ∧
    (InInt64 (page * 10) →
      (RenderJSON.response places total page 10).get? "next_page"
        = (if page * 10 < total then some (JValue.num (page + 1)) else none)) ∧
    (page = 1 → total ≤ 10 →
      (RenderJSON.response places total page 10).get? "prev_page" = none ∧
      (RenderJSON.response places total page 10).get? "next_page" = none) := by
  obtain ⟨hname, htotal, hplaces, hlast, hprev, hnext⟩ :=
    RenderJSON_response_get places total page 10
  refine ⟨hname, htotal, hplaces, ?_, ?_, ?_, ?_⟩
  · rw [hlast]
    rfl
  · rw [hprev]
    split
    · rename_i hgt
      have : sub64 page 1 = page - 1 := by
        unfold sub64
        apply wrap64_of_inInt64
        unfold InInt64 at hpage ⊢
        omega
      rw [this]
    · rfl
  · intro hmul
    rw [hnext]
    have hm : mul64 page 10 = page * 10 := wrap64_of_inInt64 hmul
    have ha : add64 page 1 = page + 1 := by
      unfold add64
      apply wrap64_of_inInt64
      unfold InInt64 at hmul hpage ⊢
      omega
    rw [hm, ha]
  · intro hone hle
    subst hone
    rw [hprev, hnext]
    have hm : mul64 1 10 = 10 := by decide
    rw [hm]
    constructor
    · simp
    · rw [if_neg (by omega)]

/-- C3, evaluated on page 2 of 25 places: both links are present. -/
theorem RenderJSON_envelope_witness :
    (RenderJSON.response (["a"] : List String) 25 2 10).get? "prev_page"
      = some (JValue.num 1) ∧
    (RenderJSON.response (["a"] : List String) 25 2 10).get? "next_page"
      = some (JValue.num 3) := by
  have h := RenderJSON_envelope (["a"] : List String) 25 2 (by decide)
  refine ⟨?_, ?_⟩
  · have := h.2.2.2.2.1
    simpa using this
  · have := h.2.2.2.2.2.1 (by decide)
    simpa using this

/-- A renderer call of `HandleRequest` has size 10 and a page number between 1 and the
source's last page of the total it is called with. -/
theorem HandleRequest_render_mem {Place F : Type} (req : Request) (store : Store Place F)
    (renderFunc : List Place → Int → Int → Int → Response) {places : List Place}
    {total page size : Int}
    (hcall : Call.render places total page size ∈ (HandleRequest req store renderFunc).1) :
    size = 10 ∧ InInt64 page ∧ 1 ≤ page ∧ page ≤ div64 (sub64 (add64 total 10) 1) 10 := by
  cases hat : Atoi (HandleRequest.page req) with
  | none =>
    rw [HandleRequest_atoi_none req store renderFunc hat] at hcall
    simp at hcall
  | some n =>
    by_cases hn : n < 1
    · rw [HandleRequest_lt_one req store renderFunc hat hn] at hcall
      simp at hcall
    · have hn1 : 1 ≤ n := by omega
      cases hs : store.GetPlaces 10 (mul64 (sub64 n 1) 10) with
      | error err =>
        rw [HandleRequest_store_error req store renderFunc hat hn1 hs] at hcall
        simp at hcall
      | ok res =>
        obtain ⟨ps, t⟩ := res
        rw [HandleRequest_store_ok req store renderFunc hat hn1 hs] at hcall
        split at hcall
        · simp at hcall
        · rename_i hle
          simp only [List.mem_cons, List.mem_singleton, Call.render.injEq, false_or,
            List.not_mem_nil, or_false, reduceCtorEq] at hcall
          obtain ⟨_, ht, hp, hsz⟩ := hcall
          subst ht hp hsz
          exact ⟨rfl, Atoi_inInt64 hat, hn1, by omega⟩

/-- The links of `RenderJSON`'s object for a page number between 1 and the source's last
page. -/
theorem RenderJSON_links_of_bounds {Place : Type} (places : List Place) {total page : Int}
    (htotal : InInt64 total) (h0 : 0 ≤ total) (h1 : 1 ≤ page)
    (hle : page ≤ div64 (sub64 (add64 total 10) 1) 10) :
    (RenderJSON.response places total page 10).get? "last_page"
      = some (JValue.num ((total + 9) / 10)) ∧
    (RenderJSON.response places total page 10).get? "next_page"
      = (if page < (total + 9) / 10 then some (JValue.num (page + 1)) else none) ∧
    (RenderJSON.response places total page 10).get? "prev_page"
      = (if 1 < page then some (JValue.num (page - 1)) else none) ∧
    page ≤ (total + 9) / 10 := by
  have hmax : total ≤ 2 ^ 63 - 10 := by
    by_contra hbig
    have := lastPage_neg_of_overflow htotal (by omega)
    omega
  have hL := lastPage_eq h0 hmax
  rw [hL] at hle
  have hpage : InInt64 page := by
    unfold InInt64 at htotal ⊢
    omega
  have hmul : InInt64 (page * 10) := by
    unfold InInt64 at htotal ⊢
    omega
  obtain ⟨_, _, _, hlast, hprev, hnext⟩ := RenderJSON_response_get places total page 10
  have hm : mul64 page 10 = page * 10 := wrap64_of_inInt64 hmul
  have ha : add64 page 1 = page + 1 := by
    unfold add64
    apply wrap64_of_inInt64
    unfold InInt64 at hmul hpage ⊢
    omega
  have hsub : sub64 page 1 = page - 1 := by
    unfold sub64
    apply wrap64_of_inInt64
    unfold InInt64 at hpage ⊢
    omega
  refine ⟨by rw [hlast, hL], ?_, ?_, hle⟩
  · rw [hnext, hm, ha]
    by_cases hlt : page * 10 < total
    · rw [if_pos hlt, if_pos (by omega)]
    · rw [if_neg hlt, if_neg (by omega)]
  · rw [hprev, hsub]

/-- C10. Whenever `HandleRequest` calls the renderer with `(places, total, page, size)` for a
total of at least 0, the object `RenderJSON` builds from these arguments has a `last_page`
value `L` such that `next_page` is present exactly when `page < L`, a present `next_page` is
at most `L`, and a present `prev_page` is at least 1 and below `L`. -/
theorem RenderJSON_links_consistent {Place F : Type} (req : Request) (store : Store Place F)
    (renderFunc : List Place → Int → Int → Int → Response) (places : List Place)
    (total page size : Int)
    (hcall : Call.render places total page size ∈ (HandleRequest req store renderFunc).1)
    (htotal : InInt64 total) (h0 : 0 ≤ total) :
    ∃ L : Int,
      (RenderJSON.response places total page size).get? "last_page" = some (JValue.num L) ∧
      L = div64 (sub64 (add64 total 10) 1) 10 ∧ 1 ≤ page ∧ page ≤ L ∧
      (((RenderJSON.response places total page size).get? "next_page").isSome = true
        ↔ page < L) ∧
      (∀ v, (RenderJSON.response places total page size).get? "next_page"
        = some (JValue.num v) → v = page + 1 ∧ v ≤ L) ∧
      (∀ v, (RenderJSON.response places total page size).get? "prev_page"
        = some (JValue.num v) → v = page - 1 ∧ 1 ≤ v ∧ v < L) := by
  obtain ⟨hsize, _, h1, hle⟩ := HandleRequest_render_mem req store renderFunc hcall
  subst hsize
  obtain ⟨hlast, hnext, hprev, hleL⟩ := RenderJSON_links_of_bounds places htotal h0 h1 hle
  have hLeq : div64 (sub64 (add64 total 10) 1) 10 = (total + 9) / 10 := by
    obtain ⟨_, _, _, hl, _, _⟩ := RenderJSON_response_get places total page 10
    rw [hl] at hlast
    simpa using hlast
  refine ⟨(total + 9) / 10, hlast, hLeq.symm, h1, hleL, ?_, ?_, ?_⟩
  · rw [hnext]
    by_cases hlt : page < (total + 9) / 10
    · simp [hlt]
    · simp [hlt]
  · intro v hv
    rw [hnext] at hv
    split at hv
    · simp only [Option.some.injEq, JValue.num.injEq] at hv
      omega
    · cases hv
  · intro v hv
    rw [hprev] at hv
    split at hv
    · simp only [Option.some.injEq, JValue.num.injEq] at hv
      omega
    · cases hv

/-- C10, evaluated on page 2 of 25 places. -/
theorem RenderJSON_links_consistent_witness :
    ∃ L : Int,
      (RenderJSON.response ["a"] 25 2 10).get? "last_page" = some (JValue.num L) ∧
      L = div64 (sub64 (add64 25 10) 1) 10 ∧ (1 : Int) ≤ 2 ∧ 2 ≤ L ∧
      (((RenderJSON.response ["a"] 25 2 10).get? "next_page").isSome = true ↔ 2 < L) ∧
      (∀ v, (RenderJSON.response ["a"] 25 2 10).get? "next_page"
        = some (JValue.num v) → v = 2 + 1 ∧ v ≤ L) ∧
      (∀ v, (RenderJSON.response ["a"] 25 2 10).get? "prev_page"
        = some (JValue.num v) → v = 2 - 1 ∧ 1 ≤ v ∧ v < L) :=
  @RenderJSON_links_consistent String Int (queryRequest [("page", "2")]) (constStore ["a"] 25)
    blankRender ["a"] 25 2 10 (by decide) (by decide) (by decide)

/-! ## store/elasticsearch.go and main.go -/

/-- C6, on the code. When the delete call is answered with status 404, as it is for an index
that does not exist, `DeleteIndexIfExists` returns a non-nil error, and the provisioning of
`main` ends in `log.Fatalf` before the index is created or loaded. -/
theorem DeleteIndexIfExists_not_found_is_error {F File : Type} (ParseFloat : FloatParser F)
    (Marshal : Doc F → Except String String) (fs : Files File) (es : EsClient)
    (res : EsResponse String) (hdel : es.IndicesDelete ["places"] = .ok res)
    (h404 : res.StatusCode = 404) :
    DeleteIndexIfExists es "places" = some ("error deleting index: " ++ res.text) ∧
    main.provision ParseFloat Marshal fs es
      = .fatal ("Error deleting index: " ++ ("error deleting index: " ++ res.text)) := by
  have hd : DeleteIndexIfExists es "places" = some ("error deleting index: " ++ res.text) := by
    unfold DeleteIndexIfExists
    rw [hdel]
    simp [EsResponse.IsError, h404]
  refine ⟨hd, ?_⟩
  unfold main.provision
  rw [hd]

/-- C6, evaluated on a cluster without the index. -/
theorem DeleteIndexIfExists_not_found_is_error_witness :
    DeleteIndexIfExists freshCluster "places"
      = some ("error deleting index: " ++ "[404 Not Found] index_not_found_exception") ∧
    main.provision intParser barMarshal (oneFile sampleRecords) freshCluster
      = .fatal ("Error deleting index: " ++
          ("error deleting index: " ++ "[404 Not Found] index_not_found_exception")) :=
  DeleteIndexIfExists_not_found_is_error intParser barMarshal (oneFile sampleRecords)
    freshCluster _ rfl rfl

/-- C7, refuted as stated. A `_bulk` reply with status 200 whose body flags a failed item
makes `LoadData` return a nil error. -/
theorem LoadData_item_failure_ignored :
    itemFailureReply.StatusCode = 200 ∧
    itemFailureReply.Body.reportsItemFailure = true ∧
    LoadData intParser barMarshal (oneFile sampleRecords) itemFailureCluster "data/data.csv"
      = .returned none := by
  decide

/-- C7, amended. `LoadData` returns a non-nil error when the file cannot be opened, when it
cannot be parsed, when the bulk call fails in transport, and when the bulk reply has an HTTP
status above 299; a bulk reply with a status of at most 299 makes it return nil whatever the
body of the reply says about the items. -/
theorem LoadData_errors {F File : Type} (ParseFloat : FloatParser F)
    (Marshal : Doc F → Except String String) (fs : Files File) (es : EsClient)
    (filePath : String) :
    (∀ err, fs.Open filePath = .error err →
      LoadData ParseFloat Marshal fs es filePath
        = .returned (some ("error opening file: " ++ err))) ∧
    (∀ file err, fs.Open filePath = .ok file → fs.ReadAll file = .error err →
      LoadData ParseFloat Marshal fs es filePath
        = .returned (some ("error reading CSV: " ++ err))) ∧
    (∀ file records buffer, fs.Open filePath = .ok file → fs.ReadAll file = .ok records →
      LoadData.buffer ParseFloat Marshal records = some buffer →
      (∀ err, es.Bulk buffer = .error err →
        LoadData ParseFloat Marshal fs es filePath
          = .returned (some ("error executing bulk request: " ++ err))) ∧
      (∀ res, es.Bulk buffer = .ok res → res.StatusCode > 299 →
        LoadData ParseFloat Marshal fs es filePath
          = .returned (some ("bulk request error: " ++ res.text))) ∧
      (∀ res, es.Bulk buffer = .ok res → res.StatusCode ≤ 299 →
        LoadData ParseFloat Marshal fs es filePath = .returned none)) := by
  refine ⟨?_, ?_, ?_⟩
  · intro err hopen
    unfold LoadData
    rw [hopen]
  · intro file err hopen hread
    unfold LoadData
    rw [hopen]
    simp only [hread]
  · intro file records buffer hopen hread hbuf
    refine ⟨?_, ?_, ?_⟩
    · intro err hbulk
      unfold LoadData
      rw [hopen]
      simp only [hread, hbuf, hbulk]
    · intro res hbulk hstatus
      unfold LoadData
      rw [hopen]
      simp only [hread, hbuf, hbulk]
      simp [EsResponse.IsError, hstatus]
    · intro res hbulk hstatus
      unfold LoadData
      rw [hopen]
      simp only [hread, hbuf, hbulk]
      have : ¬ res.StatusCode > 299 := by omega
      simp [EsResponse.IsError, this]

/-- C7, evaluated: a missing file, a transport failure and a status 500 make `LoadData`
return an error; a status 200 makes it return nil. -/
theorem LoadData_errors_witness :
    LoadData intParser barMarshal (oneFile sampleRecords) (bulkCluster (.ok 200)) "nowhere"
      = .returned (some "error opening file: no such file") ∧
    LoadData intParser barMarshal (oneFile sampleRecords) (bulkCluster (.error "refused"))
        "data/data.csv"
      = .returned (some "error executing bulk request: refused") ∧
    LoadData intParser barMarshal (oneFile sampleRecords) (bulkCluster (.ok 500))
        "data/data.csv"
      = .returned (some "bulk request error: ") ∧
    LoadData intParser barMarshal (oneFile sampleRecords) (bulkCluster (.ok 200))
        "data/data.csv"
      = .returned none := by
  have hmiss := (LoadData_errors intParser barMarshal (oneFile sampleRecords)
    (bulkCluster (.ok 200)) "nowhere").1 "no such file" (by rfl)
  refine ⟨hmiss, by decide, by decide, by decide⟩

/-! ## store/elasticsearch.go: the bulk request body -/

theorem LoadData_doc_of_six {F : Type} (ParseFloat : FloatParser F) {r : List String}
    (h : 6 ≤ r.length) : LoadData.doc ParseFloat r = some (LoadData.rowDoc ParseFloat r) := by
  match r, h with
  | [a, b, c, d, e, f], _ => rfl
  | a :: b :: c :: d :: e :: f :: g :: rest, _ => rfl

theorem LoadData_entry_of_six {F : Type} (ParseFloat : FloatParser F)
    (Marshal : Doc F → Except String String) {r : List String} (h : 6 ≤ r.length) :
    LoadData.entry ParseFloat Marshal r
      = some (LoadData.meta (r.getD 0 "")
          ++ LoadData.data Marshal (LoadData.rowDoc ParseFloat r) ++ "\n") := by
  unfold LoadData.entry
  rw [LoadData_doc_of_six ParseFloat h]
  match r, h with
  | a :: rest, _ =>
    simp only [LoadData.data, List.getElem?_cons_zero, Option.map_some', List.getD_cons_zero,
      Option.bind_eq_bind, Option.some_bind, Option.pure_def]

/-- The loop of `LoadData` past the first record appends one entry per record, in order. -/
theorem LoadData_loop_rows {F : Type} (ParseFloat : FloatParser F)
    (Marshal : Doc F → Except String String) (rows : List (List String))
    (h : ∀ r ∈ rows, 6 ≤ r.length) (i : Nat) (buffer : String) :
    LoadData.loop ParseFloat Marshal rows (i + 1) buffer
      = some (buffer ++ concatAll (rows.map (fun r =>
          LoadData.meta (r.getD 0 "")
            ++ LoadData.data Marshal (LoadData.rowDoc ParseFloat r) ++ "\n"))) := by
  induction rows generalizing i buffer with
  | nil => simp [LoadData.loop, concatAll]
  | cons r rest ih =>
    have hr : 6 ≤ r.length := h r (List.mem_cons_self r rest)
    have hrest : ∀ r' ∈ rest, 6 ≤ r'.length := fun r' hr' => h r' (List.mem_cons_of_mem r hr')
    unfold LoadData.loop
    rw [if_neg (Nat.succ_ne_zero i), LoadData_entry_of_six ParseFloat Marshal hr]
    simp only
    rw [ih hrest]
    simp only [List.map_cons, concatAll, String.append_assoc]

theorem evalFloatLib_lawful : evalFloatLib.Lawful where
  parse_zero := by decide
  syntax_zero := by
    intro s v h
    show v = EvalFloat.finite 0
    have h' : evalParseFloat s = (v, some NumError.ErrSyntax) := h
    unfold evalParseFloat at h'
    split at h'
    · cases h'
    · split at h'
      · cases h'
      · cases h'
        rfl
  range_inf := by decide
  zero_ne_inf := by decide
  marshal_inf := by
    intro d hd
    refine ⟨"json: unsupported value: +Inf", ?_⟩
    have hd' : d.location.lat = EvalFloat.inf ∨ d.location.lon = EvalFloat.inf := hd
    show evalMarshal d = _
    unfold evalMarshal
    rw [if_pos hd']

/-- The entry of a row by the outcome of `json.Marshal` on its document. -/
theorem LoadData_data_cases {F : Type} (Marshal : Doc F → Except String String) (d : Doc F)
    (m : String) :
    (∀ data, Marshal d = .ok data → m ++ LoadData.data Marshal d ++ "\n" = m ++ data ++ "\n") ∧
    (∀ err, Marshal d = .error err → m ++ LoadData.data Marshal d ++ "\n" = m ++ "\n") := by
  constructor
  · intro data h
    unfold LoadData.data
    rw [h]
  · intro err h
    unfold LoadData.data
    rw [h]
    simp

/-- C8, refuted as stated, for every float parser and marshaller that behave as documented.
In a file whose one data row has the longitude cell `1e400`, the parser reports an error for
the cell, yet the coordinate is `+Inf`, not zero; `json.Marshal` rejects the document, its
error is dropped, and the bulk body holds the action line of the row followed by an empty
line instead of the document. With the routines for evaluation, which behave as documented,
this is what `LoadData` builds. -/
theorem LoadData_out_of_range_cell :
    (¬ ∃ (F : Type) (L : FloatLib F), L.Lawful ∧
      (LoadData.doc L.ParseFloat ["9", "Pub", "High St", "557", "1e400", "55"]).map
        (fun d => d.location.lon) = some L.zero) ∧
    (¬ ∃ (F : Type) (L : FloatLib F), L.Lawful ∧
      LoadData.buffer L.ParseFloat L.Marshal outOfRangeRecords
        ≠ some ("\x7b \"index\" : \x7b \"_index\" : \"places\", \"_id\" : \"9\" \x7d \x7d\n"
            ++ "\n")) ∧
    evalFloatLib.Lawful ∧
    evalParseFloat "1e400" = (EvalFloat.inf, some NumError.ErrRange) ∧
    (LoadData.doc evalParseFloat ["9", "Pub", "High St", "557", "1e400", "55"]).map
      (fun d => d.location.lon) = some EvalFloat.inf ∧
    LoadData.buffer evalParseFloat evalMarshal outOfRangeRecords
      = some ("\x7b \"index\" : \x7b \"_index\" : \"places\", \"_id\" : \"9\" \x7d \x7d\n"
          ++ "\n") := by
  refine ⟨?_, ?_, evalFloatLib_lawful, by decide, by decide, by decide⟩
  · rintro ⟨F, L, hL, hlon⟩
    have hdoc : (LoadData.doc L.ParseFloat ["9", "Pub", "High St", "557", "1e400", "55"]).map
        (fun d => d.location.lon) = some (L.ParseFloat "1e400").1 := rfl
    rw [hdoc, hL.range_inf] at hlon
    exact hL.zero_ne_inf (Option.some.inj hlon).symm
  · rintro ⟨F, L, hL, hne⟩
    apply hne
    have hrow : (6 : Nat) ≤ (["9", "Pub", "High St", "557", "1e400", "55"] : List String).length := by
      decide
    have hentry := LoadData_entry_of_six L.ParseFloat L.Marshal hrow
    have hlon : (LoadData.rowDoc L.ParseFloat
        ["9", "Pub", "High St", "557", "1e400", "55"]).location.lon = L.posInf := by
      show (L.ParseFloat "1e400").1 = L.posInf
      rw [hL.range_inf]
    obtain ⟨err, herr⟩ := hL.marshal_inf _ (Or.inr hlon)
    rw [(LoadData_data_cases L.Marshal _ _).2 err herr] at hentry
    show LoadData.loop L.ParseFloat L.Marshal outOfRangeRecords 0 "" = _
    unfold outOfRangeRecords
    rw [LoadData.loop, if_pos rfl, LoadData.loop, if_neg (by decide), hentry]
    rfl

/-- C8, amended. For a parsed file made of a first row and `n` data rows of at least 6
fields each, the bulk request body `LoadData` builds is the concatenation, in row order, of
exactly `n` entries, none of them for the first row. The entry of a row `r` is the action
line with the id `r[0]`, then the marshalled document with id `r[0]`, name `r[1]`, address
`r[2]`, phone `r[3]`, latitude the value the parser returns for `r[5]` and longitude the
value it returns for `r[4]`, then a newline; when `json.Marshal` reports an error for the
document the entry is the action line and an empty line. The error of the parser is
dropped and its value kept, so a cell with a syntax error gives the coordinate zero, and
the body is built whatever the cells are. -/
theorem LoadData_buffer_rows {F : Type} (L : FloatLib F) (hL : L.Lawful)
    (header : List String) (rows : List (List String)) (h : ∀ r ∈ rows, 6 ≤ r.length) :
    (∃ entries : List String,
      LoadData.buffer L.ParseFloat L.Marshal (header :: rows) = some (concatAll entries) ∧
      entries.length = rows.length ∧
      ∀ (i : Nat) (hi : i < rows.length),
        (∀ data, L.Marshal (LoadData.rowDoc L.ParseFloat rows[i]) = .ok data →
          entries[i]? = some (LoadData.meta ((rows[i]).getD 0 "") ++ data ++ "\n")) ∧
        (∀ err, L.Marshal (LoadData.rowDoc L.ParseFloat rows[i]) = .error err →
          entries[i]? = some (LoadData.meta ((rows[i]).getD 0 "") ++ "\n"))) ∧
    (∀ r ∈ rows,
      LoadData.doc L.ParseFloat r
        = some { id := r.getD 0 "", name := r.getD 1 "", address := r.getD 2 "",
                 phone := r.getD 3 "",
                 location := { lat := (L.ParseFloat (r.getD 5 "")).1,
                               lon := (L.ParseFloat (r.getD 4 "")).1 } } ∧
      ((L.ParseFloat (r.getD 5 "")).2 = some NumError.ErrSyntax →
        (LoadData.doc L.ParseFloat r).map (fun d => d.location.lat) = some L.zero) ∧
      ((L.ParseFloat (r.getD 4 "")).2 = some NumError.ErrSyntax →
        (LoadData.doc L.ParseFloat r).map (fun d => d.location.lon) = some L.zero)) := by
  constructor
  · refine ⟨rows.map (fun r => LoadData.meta (r.getD 0 "")
        ++ LoadData.data L.Marshal (LoadData.rowDoc L.ParseFloat r) ++ "\n"), ?_, ?_, ?_⟩
    · unfold LoadData.buffer LoadData.loop
      rw [if_pos rfl, LoadData_loop_rows L.ParseFloat L.Marshal rows h 0 ""]
      simp
    · simp
    · intro i hi
      have hget : (rows.map (fun r => LoadData.meta (r.getD 0 "")
          ++ LoadData.data L.Marshal (LoadData.rowDoc L.ParseFloat r) ++ "\n"))[i]?
          = some (LoadData.meta ((rows[i]).getD 0 "")
              ++ LoadData.data L.Marshal (LoadData.rowDoc L.ParseFloat rows[i]) ++ "\n") := by
        simp [hi]
      constructor
      · intro data hok
        rw [hget, (LoadData_data_cases L.Marshal _ _).1 data hok]
      · intro err herr
        rw [hget, (LoadData_data_cases L.Marshal _ _).2 err herr]
  · intro r hr
    have hdoc := LoadData_doc_of_six L.ParseFloat (h r hr)
    have hsplit : ∀ s, L.ParseFloat s = ((L.ParseFloat s).1, (L.ParseFloat s).2) := fun s => rfl
    refine ⟨by rw [hdoc]; rfl, ?_, ?_⟩
    · intro herr
      rw [hdoc]
      show some (L.ParseFloat (r.getD 5 "")).1 = some L.zero
      have hz : (L.ParseFloat (r.getD 5 "")).1 = L.zero :=
        hL.syntax_zero (r.getD 5 "") _ (by rw [hsplit (r.getD 5 ""), herr])
      rw [hz]
    · intro herr
      rw [hdoc]
      show some (L.ParseFloat (r.getD 4 "")).1 = some L.zero
      have hz : (L.ParseFloat (r.getD 4 "")).1 = L.zero :=
        hL.syntax_zero (r.getD 4 "") _ (by rw [hsplit (r.getD 4 ""), herr])
      rw [hz]

/-- C8, evaluated on a header and two data rows, the second with the longitude cell `east`:
two entries, the coordinates swapped, and 0 for the malformed cell. -/
theorem LoadData_buffer_rows_witness :
    LoadData.buffer evalParseFloat evalMarshal sampleRecords
      = some ("\x7b \"index\" : \x7b \"_index\" : \"places\", \"_id\" : \"7\" \x7d \x7d\n"
          ++ "7|Cafe|Main St|555|55|37\n"
          ++ "\x7b \"index\" : \x7b \"_index\" : \"places\", \"_id\" : \"8\" \x7d \x7d\n"
          ++ "8|Bar|Side St|556|56|0\n") ∧
    (LoadData.doc evalParseFloat ["8", "Bar", "Side St", "556", "east", "56"]).map
      (fun d => d.location.lon) = some (EvalFloat.finite 0) := by
  have h := LoadData_buffer_rows evalFloatLib evalFloatLib_lawful
    ["ID", "Name", "Address", "Phone", "Longitude", "Latitude"]
    [["7", "Cafe", "Main St", "555", "37", "55"], ["8", "Bar", "Side St", "556", "east", "56"]]
    (by decide)
  refine ⟨by decide, ?_⟩
  exact (h.2 ["8", "Bar", "Side St", "556", "east", "56"] (by decide)).2.2 (by decide)

/-! ## handlers/geo.go -/

/-- C9. `HandleGeoRequest` parses `lat` first and `lon` second. If the parser reports an
error for `lat`, or for `lon` once `lat` has parsed, which is the case of a missing
parameter whenever the parser rejects the empty text, the reply is 400 and the store is not
called. Otherwise the store's `GetNearestPlaces` is called exactly once, with the parsed
latitude and longitude and the limit 3; a store error gives the reply 500, and on success
the object with `name` set to `Recommendation` and `places` set to the store's list,
unchanged and in the store's order, is handed to the JSON encoder, whose output is the body
of the reply. -/
theorem HandleGeoRequest_spec {Place F : Type} (ParseFloat : FloatParser F)
    (encode : JObject Place → Option String) (store : Store Place F) (req : Request) :
    (∀ v err, ParseFloat (req.queryGet "lat") = (v, some err) →
      HandleGeoRequest ParseFloat encode store req
        = ([], httpError "Invalid latitude value" 400)) ∧
    (∀ lat v err, ParseFloat (req.queryGet "lat") = (lat, none) →
      ParseFloat (req.queryGet "lon") = (v, some err) →
      HandleGeoRequest ParseFloat encode store req
        = ([], httpError "Invalid longitude value" 400)) ∧
    ((ParseFloat "").2 ≠ none → req.queryGet "lat" = "" ∨ req.queryGet "lon" = "" →
      (HandleGeoRequest ParseFloat encode store req).1 = [] ∧
      (HandleGeoRequest ParseFloat encode store req).2.status = 400) ∧
    (∀ lat lon, ParseFloat (req.queryGet "lat") = (lat, none) →
      ParseFloat (req.queryGet "lon") = (lon, none) →
      (HandleGeoRequest ParseFloat encode store req).1 = [Call.getNearestPlaces lat lon 3] ∧
      (∀ err, store.GetNearestPlaces lat lon 3 = .error err →
        (HandleGeoRequest ParseFloat encode store req).2
          = httpError "Error fetching nearest places" 500) ∧
      (∀ places, store.GetNearestPlaces lat lon 3 = .ok places →
        HandleGeoRequest.response places
          = [("name", JValue.str "Recommendation"), ("places", JValue.places places)] ∧
        (∀ body, encode (HandleGeoRequest.response places) = some body →
          (HandleGeoRequest ParseFloat encode store req).2
            = { status := 200, contentType := "application/json", body := body }) ∧
        (encode (HandleGeoRequest.response places) = none →
          (HandleGeoRequest ParseFloat encode store req).2
            = httpError "Error encoding response" 500))) := by
  have hlatErr : ∀ v err, ParseFloat (req.queryGet "lat") = (v, some err) →
      HandleGeoRequest ParseFloat encode store req
        = ([], httpError "Invalid latitude value" 400) := by
    intro v err h
    unfold HandleGeoRequest
    simp only [h]
    rfl
  have hlonErr : ∀ lat v err, ParseFloat (req.queryGet "lat") = (lat, none) →
      ParseFloat (req.queryGet "lon") = (v, some err) →
      HandleGeoRequest ParseFloat encode store req
        = ([], httpError "Invalid longitude value" 400) := by
    intro lat v err h1 h2
    unfold HandleGeoRequest
    simp only [h1, h2]
    rfl
  refine ⟨hlatErr, hlonErr, ?_, ?_⟩
  · intro hempty hmiss
    have hsplit : ∀ s, ParseFloat s = ((ParseFloat s).1, (ParseFloat s).2) := fun s => rfl
    cases hlat : (ParseFloat (req.queryGet "lat")).2 with
    | some err =>
      rw [hlatErr _ err (by rw [hsplit (req.queryGet "lat"), hlat])]
      exact ⟨rfl, rfl⟩
    | none =>
      have hlon : req.queryGet "lon" = "" := by
        rcases hmiss with h | h
        · rw [h] at hlat
          exact absurd hlat hempty
        · exact h
      cases hl : (ParseFloat (req.queryGet "lon")).2 with
      | none =>
        rw [hlon] at hl
        exact absurd hl hempty
      | some err =>
        rw [hlonErr _ _ err (by rw [hsplit (req.queryGet "lat"), hlat])
          (by rw [hsplit (req.queryGet "lon"), hl])]
        exact ⟨rfl, rfl⟩
  · intro lat lon h1 h2
    refine ⟨?_, ?_, ?_⟩
    · unfold HandleGeoRequest
      simp only [h1, h2]
      cases store.GetNearestPlaces lat lon 3 <;> rfl
    · intro err hs
      unfold HandleGeoRequest
      simp only [h1, h2, hs]
      rfl
    · intro places hs
      refine ⟨rfl, ?_, ?_⟩
      · intro body henc
        unfold HandleGeoRequest
        simp only [h1, h2, hs, henc]
        rfl
      · intro henc
        unfold HandleGeoRequest
        simp only [h1, h2, hs, henc]
        rfl

/-- C9, evaluated: a missing `lon` and a non-numeric `lat` are answered 400 without a store
call; with both parameters the store is asked once for 3 places around the parsed point. -/
theorem HandleGeoRequest_spec_witness :
    HandleGeoRequest intParser keyCountEncode (constStore ["near", "far"] 2)
        (queryRequest [("lat", "55")])
      = ([], httpError "Invalid longitude value" 400) ∧
    HandleGeoRequest intParser keyCountEncode (constStore ["near", "far"] 2)
        (queryRequest [("lat", "north"), ("lon", "37")])
      = ([], httpError "Invalid latitude value" 400) ∧
    HandleGeoRequest intParser keyCountEncode (constStore ["near", "far"] 2)
        (queryRequest [("lat", "55"), ("lon", "37")])
      = ([Call.getNearestPlaces 55 37 3],
          { status := 200, contentType := "application/json", body := "keys=2" }) := by
  have h := HandleGeoRequest_spec intParser keyCountEncode (constStore ["near", "far"] 2)
    (queryRequest [("lat", "55")])
  refine ⟨h.2.1 55 0 NumError.ErrSyntax (by decide) (by decide), by decide, by decide⟩

/-! ## middleware/jwt.go: the gate -/

theorem TrimPrefix_append (pre t : String) : TrimPrefix (pre ++ t) pre = t := by
  unfold TrimPrefix
  have hpre : pre.toList.isPrefixOf (pre ++ t).toList = true := by
    rw [List.isPrefixOf_iff_prefix]
    show pre.data <+: (pre ++ t).data
    rw [String.data_append]
    exact List.prefix_append _ _
  rw [if_pos hpre]
  show String.mk (List.drop pre.data.length (pre ++ t).data) = t
  rw [String.data_append, List.drop_left]

theorem TrimPrefix_of_not_prefix (s pre : String) (h : ¬ pre.toList <+: s.toList) :
    TrimPrefix s pre = s := by
  unfold TrimPrefix
  have hpre : ¬ pre.toList.isPrefixOf s.toList = true := by
    rw [List.isPrefixOf_iff_prefix]
    exact h
  rw [if_neg hpre]

/-- A token the library accepts has valid claims at the clock reading of the parse and a
signature that its signing method verifies under the key. -/
theorem ParseWithClaims_ok {P : JwtPrims} {now : Time} {tokenString : String} {key : Bytes}
    {claims : StandardClaims} (h : ParseWithClaims P now tokenString key = .ok claims) :
    claims.Valid now.Unix = true ∧
    ∃ p0 p1 p2 method, splitChars '.' tokenString.toList = [p0, p1, p2] ∧
      SigningMethod.Verify P method (String.mk p0 ++ "." ++ String.mk p1) (String.mk p2) key
        = true := by
  unfold ParseWithClaims at h
  split at h
  · rename_i p0 p1 p2 hsplit
    split at h
    · cases h
    · split at h
      · cases h
      · split at h
        · cases h
        · split at h
          · cases h
          · split at h
            · cases h
            · split at h
              · cases h
              · rename_i method _
                simp only at h
                split at h
                · rename_i hboth
                  simp only [Bool.and_eq_true] at hboth
                  cases h
                  exact ⟨hboth.1, p0, p1, p2, method, hsplit, hboth.2⟩
                · cases h
  · cases h

theorem ParseWithClaims_empty (P : JwtPrims) (now : Time) (key : Bytes) :
    ParseWithClaims P now "" key = .error "token contains an invalid number of segments" := by
  rfl

/-- C4. Whatever the library's parser is, the handler that `WithJWTAuth` returns calls the
wrapped handler, with the request it received, exactly when the `Authorization` header is
not empty and the header value, with one leading `Bearer ` removed when it is there, is
accepted by the parser under the key. In every other case the reply is 401 and the wrapped
handler is not called: the body is `Missing token` for an empty header and `Invalid token`
for every token the parser rejects. With the parser of the token library, an accepted token
has claims that are valid at the clock reading and a signature that verifies under the key,
and the header `Bearer ` alone is answered `Invalid token`. -/
theorem WithJWTAuth_gate {Place F : Type}
    (parse : String → Bytes → Except String StandardClaims)
    (next : Request → List (Call Place F) × Response) (jwtKey : Bytes) (r : Request) :
    (r.authorization = "" →
      WithJWTAuth parse next jwtKey r = ([], httpError "Missing token" 401)) ∧
    (r.authorization ≠ "" →
      ∀ err, parse (TrimPrefix r.authorization "Bearer ") jwtKey = .error err →
        WithJWTAuth parse next jwtKey r = ([], httpError "Invalid token" 401)) ∧
    (r.authorization ≠ "" →
      ∀ claims, parse (TrimPrefix r.authorization "Bearer ") jwtKey = .ok claims →
        WithJWTAuth parse next jwtKey r = (Call.next r :: (next r).1, (next r).2)) ∧
    (Call.next r ∈ (WithJWTAuth parse next jwtKey r).1 ↔
      r.authorization ≠ "" ∧
        ∃ claims, parse (TrimPrefix r.authorization "Bearer ") jwtKey = .ok claims) ∧
    (Call.next r ∉ (WithJWTAuth parse next jwtKey r).1 →
      (WithJWTAuth parse next jwtKey r).1 = [] ∧
      (WithJWTAuth parse next jwtKey r).2.status = 401) ∧
    (∀ t : String, TrimPrefix ("Bearer " ++ t) "Bearer " = t) ∧
    (∀ s : String, ¬ "Bearer ".toList <+: s.toList → TrimPrefix s "Bearer " = s) ∧
    (∀ (P : JwtPrims) (now : Time) (t : String) (claims : StandardClaims),
      ParseWithClaims P now t jwtKey = .ok claims →
        claims.Valid now.Unix = true ∧
        ∃ p0 p1 p2 method, splitChars '.' t.toList = [p0, p1, p2] ∧
          SigningMethod.Verify P method (String.mk p0 ++ "." ++ String.mk p1) (String.mk p2)
            jwtKey = true) ∧
    (∀ (P : JwtPrims) (now : Time), r.authorization = "Bearer " →
      WithJWTAuth (ParseWithClaims P now) next jwtKey r
        = ([], httpError "Invalid token" 401)) := by
  have hmissing : ∀ (parse : String → Bytes → Except String StandardClaims),
      r.authorization = "" →
      WithJWTAuth parse next jwtKey r = ([], httpError "Missing token" 401) := by
    intro parse h
    unfold WithJWTAuth
    simp only [h, if_true]
    rfl
  have hinvalid : ∀ (parse : String → Bytes → Except String StandardClaims),
      r.authorization ≠ "" →
      ∀ err, parse (TrimPrefix r.authorization "Bearer ") jwtKey = .error err →
        WithJWTAuth parse next jwtKey r = ([], httpError "Invalid token" 401) := by
    intro parse h err herr
    unfold WithJWTAuth
    simp only [h, if_false, herr]
    rfl
  have hvalid : r.authorization ≠ "" →
      ∀ claims, parse (TrimPrefix r.authorization "Bearer ") jwtKey = .ok claims →
        WithJWTAuth parse next jwtKey r = (Call.next r :: (next r).1, (next r).2) := by
    intro h claims hok
    unfold WithJWTAuth
    simp only [h, if_false, hok]
  have hcases : (WithJWTAuth parse next jwtKey r).1 = [] ∧
        (WithJWTAuth parse next jwtKey r).2.status = 401 ∧
        ¬ (r.authorization ≠ "" ∧
          ∃ claims, parse (TrimPrefix r.authorization "Bearer ") jwtKey = .ok claims) ∨
      Call.next r ∈ (WithJWTAuth parse next jwtKey r).1 ∧
        (r.authorization ≠ "" ∧
          ∃ claims, parse (TrimPrefix r.authorization "Bearer ") jwtKey = .ok claims) := by
    by_cases h : r.authorization = ""
    · left
      rw [hmissing parse h]
      exact ⟨rfl, rfl, fun hh => hh.1 h⟩
    · cases hp : parse (TrimPrefix r.authorization "Bearer ") jwtKey with
      | error err =>
        left
        rw [hinvalid parse h err hp]
        refine ⟨rfl, rfl, ?_⟩
        rintro ⟨_, claims, hc⟩
        cases hc
      | ok claims =>
        right
        rw [hvalid h claims hp]
        exact ⟨List.mem_cons_self _ _, h, claims, rfl⟩
  refine ⟨hmissing parse, hinvalid parse, hvalid, ?_, ?_, ?_, ?_, ?_, ?_⟩
  · constructor
    · intro hmem
      rcases hcases with ⟨hnil, _, _⟩ | ⟨_, hacc⟩
      · rw [hnil] at hmem
        cases hmem
      · exact hacc
    · intro hacc
      rcases hcases with ⟨_, _, hno⟩ | ⟨hmem, _⟩
      · exact absurd hacc hno
      · exact hmem
  · intro hnot
    rcases hcases with ⟨hnil, hstatus, _⟩ | ⟨hmem, _⟩
    · exact ⟨hnil, hstatus⟩
    · exact absurd hmem hnot
  · intro t
    exact TrimPrefix_append "Bearer " t
  · intro s hs
    exact TrimPrefix_of_not_prefix s "Bearer " hs
  · intro P now t claims hok
    exact ParseWithClaims_ok hok
  · intro P now hb
    have hne : r.authorization ≠ "" := by
      rw [hb]
      decide
    have htrim : TrimPrefix r.authorization "Bearer " = "" := by
      rw [hb]
      decide
    exact hinvalid (ParseWithClaims P now) hne _
      (by rw [htrim]; exact ParseWithClaims_empty P now jwtKey)

/-- C4, evaluated with the unary primitives: no header, the header `Bearer ` alone and a
malformed token are answered 401 without a call to the wrapped handler. -/
theorem WithJWTAuth_gate_witness :
    WithJWTAuth (ParseWithClaims unaryPrims ⟨0⟩) okHandler [107] (authRequest "")
      = ([], httpError "Missing token" 401) ∧
    WithJWTAuth (ParseWithClaims unaryPrims ⟨0⟩) okHandler [107] (authRequest "Bearer ")
      = ([], httpError "Invalid token" 401) ∧
    WithJWTAuth (ParseWithClaims unaryPrims ⟨0⟩) okHandler [107] (authRequest "Bearer a.b")
      = ([], httpError "Invalid token" 401) :=
  ⟨(WithJWTAuth_gate (ParseWithClaims unaryPrims ⟨0⟩) okHandler [107] (authRequest "")).1 rfl,
   (WithJWTAuth_gate (ParseWithClaims unaryPrims ⟨0⟩) okHandler [107]
      (authRequest "Bearer ")).2.2.2.2.2.2.2.2 unaryPrims ⟨0⟩ rfl,
   by decide⟩

/-! ## handlers/auth.go with middleware/jwt.go: issued tokens at the gate -/

theorem splitChars_no_sep (sep : Char) (a : List Char) (h : sep ∉ a) :
    splitChars sep a = [a] := by
  induction a with
  | nil => rfl
  | cons c cs ih =>
    have hc : c ≠ sep := fun e => h (e ▸ List.mem_cons_self c cs)
    have hcs : sep ∉ cs := fun m => h (List.mem_cons_of_mem c m)
    rw [splitChars, if_neg hc, ih hcs]

theorem splitChars_append_sep (sep : Char) (a rest : List Char) (h : sep ∉ a) :
    splitChars sep (a ++ sep :: rest) = a :: splitChars sep rest := by
  induction a with
  | nil =>
    show splitChars sep (sep :: rest) = [] :: splitChars sep rest
    rw [splitChars, if_pos rfl]
  | cons c cs ih =>
    have hc : c ≠ sep := fun e => h (e ▸ List.mem_cons_self c cs)
    have hcs : sep ∉ cs := fun m => h (List.mem_cons_of_mem c m)
    show splitChars sep (c :: (cs ++ sep :: rest)) = (c :: cs) :: splitChars sep rest
    rw [splitChars, if_neg hc, ih hcs]

/-- The token `SignedString` builds from an expiry-only claim set. -/
theorem SignedString_eq (P : JwtPrims) (exp : Int) (key : Bytes) :
    SignedString P (StandardClaims.withExpiresAt exp) key
      = .ok (SigningString P "HS256" (StandardClaims.withExpiresAt exp) ++ "." ++
          P.EncodeSegment (hmacSum P .SHA256 key
            (stringBytes (SigningString P "HS256" (StandardClaims.withExpiresAt exp))))) :=
  rfl

/-- The library's verdict on a token that `SignedString` built from an expiry-only claim
set with the key `key`, parsed under the key `key'`: it is accepted exactly when the expiry
check passes and the two keys give the signing string the same HMAC. -/
theorem ParseWithClaims_signed {P : JwtPrims} (hP : P.Lawful) (exp : Int) (key key' : Bytes)
    (now : Time) :
    ParseWithClaims P now
        (SigningString P "HS256" (StandardClaims.withExpiresAt exp) ++ "." ++
          P.EncodeSegment (hmacSum P .SHA256 key
            (stringBytes (SigningString P "HS256" (StandardClaims.withExpiresAt exp))))) key'
      = if verifyExp exp now.Unix false &&
            (hmacSum P .SHA256 key
                (stringBytes (SigningString P "HS256" (StandardClaims.withExpiresAt exp)))
              == hmacSum P .SHA256 key'
                (stringBytes (SigningString P "HS256" (StandardClaims.withExpiresAt exp))))
        then .ok (StandardClaims.withExpiresAt exp) else .error "token is invalid" := by
  have hH : '.' ∉ (P.EncodeSegment (P.marshalHeader "HS256")).data :=
    fun m => (hP.segment_chars _ _ m).1 rfl
  have hC : '.' ∉ (P.EncodeSegment (P.marshalClaims (StandardClaims.withExpiresAt exp))).data :=
    fun m => (hP.segment_chars _ _ m).1 rfl
  have hS : ∀ bs, '.' ∉ (P.EncodeSegment bs).data :=
    fun bs m => (hP.segment_chars _ _ m).1 rfl
  unfold ParseWithClaims
  have hsplit : splitChars '.'
      (SigningString P "HS256" (StandardClaims.withExpiresAt exp) ++ "." ++
        P.EncodeSegment (hmacSum P .SHA256 key
          (stringBytes (SigningString P "HS256" (StandardClaims.withExpiresAt exp))))).toList
      = [(P.EncodeSegment (P.marshalHeader "HS256")).data,
         (P.EncodeSegment (P.marshalClaims (StandardClaims.withExpiresAt exp))).data,
         (P.EncodeSegment (hmacSum P .SHA256 key
            (stringBytes (SigningString P "HS256" (StandardClaims.withExpiresAt exp))))).data] := by
    have hl : (SigningString P "HS256" (StandardClaims.withExpiresAt exp) ++ "." ++
        P.EncodeSegment (hmacSum P .SHA256 key
          (stringBytes (SigningString P "HS256" (StandardClaims.withExpiresAt exp))))).toList
        = (P.EncodeSegment (P.marshalHeader "HS256")).data ++ '.' ::
            ((P.EncodeSegment (P.marshalClaims (StandardClaims.withExpiresAt exp))).data ++ '.' ::
              (P.EncodeSegment (hmacSum P .SHA256 key
                (stringBytes (SigningString P "HS256"
                  (StandardClaims.withExpiresAt exp))))).data) := by
      show (_ : String).data = _
      simp only [SigningString, String.data_append, List.append_assoc]
      rfl
    rw [hl, splitChars_append_sep _ _ _ hH, splitChars_append_sep _ _ _ hC,
      splitChars_no_sep _ _ (hS _)]
  rw [hsplit]
  simp only [hP.decode_encode, hP.header_roundtrip, hP.claims_roundtrip]
  have hm : GetSigningMethod "HS256" = some (.HMAC .SHA256) := by decide
  simp only [hm, SigningMethod.Verify, hP.decode_encode]
  have hvalid : (StandardClaims.withExpiresAt exp).Valid now.Unix = verifyExp exp now.Unix false := by
    simp [StandardClaims.Valid, StandardClaims.withExpiresAt, verifyIat, verifyNbf]
  rw [hvalid]
  rfl

theorem Unix_add_day (t : Time) : (t.Add (24 * Hour)).Unix = t.Unix + 86400 := by
  unfold Time.Add Time.Unix Hour
  rw [Int.fdiv_eq_ediv _ (by norm_num), Int.fdiv_eq_ediv _ (by norm_num)]
  show (t.nanos + 24 * (3600 * 1000000000)) / 1000000000 = t.nanos / 1000000000 + 86400
  omega

theorem Unix_mono {a b : Time} (h : a.nanos ≤ b.nanos) : a.Unix ≤ b.Unix := by
  unfold Time.Unix
  rw [Int.fdiv_eq_ediv _ (by norm_num), Int.fdiv_eq_ediv _ (by norm_num)]
  omega

/-- Go `crypto/hmac` pads a short key with zero bytes: a one-byte key and the same key
followed by a zero byte give every message the same HMAC, whatever the hash function is. -/
theorem hmacSum_zero_padded (P : JwtPrims) (h : HashAlg) (b : UInt8) (msg : Bytes) :
    hmacSum P h [b, 0] msg = hmacSum P h [b] msg := by
  cases h <;> rfl

/-- The characters of an issued token: none is a blank. -/
theorem signed_token_no_blank {P : JwtPrims} (hP : P.Lawful) (claims : StandardClaims)
    (sig : Bytes) :
    ' ' ∉ (SigningString P "HS256" claims ++ "." ++ P.EncodeSegment sig).toList := by
  have hl : (SigningString P "HS256" claims ++ "." ++ P.EncodeSegment sig).toList
      = (P.EncodeSegment (P.marshalHeader "HS256")).data ++ '.' ::
          ((P.EncodeSegment (P.marshalClaims claims)).data ++ '.' ::
            (P.EncodeSegment sig).data) := by
    show (_ : String).data = _
    simp only [SigningString, String.data_append, List.append_assoc]
    rfl
  rw [hl]
  intro hmem
  simp only [List.mem_append, List.mem_cons] at hmem
  rcases hmem with h | h | h | h | h
  · exact (hP.segment_chars _ _ h).2 rfl
  · exact absurd h (by decide)
  · exact (hP.segment_chars _ _ h).2 rfl
  · exact absurd h (by decide)
  · exact (hP.segment_chars _ _ h).2 rfl

/-- The gate on a request that carries an issued token, bare or behind `Bearer `. -/
theorem WithJWTAuth_signed {Place F : Type} {P : JwtPrims} (hP : P.Lawful) (exp : Int)
    (key key' : Bytes) (now : Time) (next : Request → List (Call Place F) × Response)
    (r : Request)
    (hauth : r.authorization
        = SigningString P "HS256" (StandardClaims.withExpiresAt exp) ++ "." ++
          P.EncodeSegment (hmacSum P .SHA256 key
            (stringBytes (SigningString P "HS256" (StandardClaims.withExpiresAt exp)))) ∨
      r.authorization
        = "Bearer " ++ (SigningString P "HS256" (StandardClaims.withExpiresAt exp) ++ "." ++
          P.EncodeSegment (hmacSum P .SHA256 key
            (stringBytes (SigningString P "HS256" (StandardClaims.withExpiresAt exp)))))) :
    WithJWTAuth (ParseWithClaims P now) next key' r
      = if verifyExp exp now.Unix false &&
            (hmacSum P .SHA256 key
                (stringBytes (SigningString P "HS256" (StandardClaims.withExpiresAt exp)))
              == hmacSum P .SHA256 key'
                (stringBytes (SigningString P "HS256" (StandardClaims.withExpiresAt exp))))
        then (Call.next r :: (next r).1, (next r).2)
        else ([], httpError "Invalid token" StatusUnauthorized) := by
  have hblank := signed_token_no_blank hP (StandardClaims.withExpiresAt exp)
    (hmacSum P .SHA256 key
      (stringBytes (SigningString P "HS256" (StandardClaims.withExpiresAt exp))))
  have htrim : TrimPrefix r.authorization "Bearer "
      = SigningString P "HS256" (StandardClaims.withExpiresAt exp) ++ "." ++
          P.EncodeSegment (hmacSum P .SHA256 key
            (stringBytes (SigningString P "HS256" (StandardClaims.withExpiresAt exp)))) := by
    rcases hauth with h | h
    · rw [h]
      apply TrimPrefix_of_not_prefix
      intro hpre
      exact hblank (hpre.subset (by decide))
    · rw [h]
      exact TrimPrefix_append _ _
  have hne : r.authorization ≠ "" := by
    intro hempty
    rcases hauth with h | h
    · rw [hempty] at h
      have hd := congrArg String.data h
      simp [String.data_append] at hd
    · rw [hempty] at h
      have hd := congrArg String.data h
      simp [String.data_append] at hd
  unfold WithJWTAuth
  simp only [hne, if_false, htrim]
  rw [ParseWithClaims_signed hP exp key key' now]
  by_cases hc : (verifyExp exp now.Unix false &&
      (hmacSum P .SHA256 key
          (stringBytes (SigningString P "HS256" (StandardClaims.withExpiresAt exp)))
        == hmacSum P .SHA256 key'
          (stringBytes (SigningString P "HS256" (StandardClaims.withExpiresAt exp))))) = true
  · rw [if_pos hc, if_pos hc]
  · rw [if_neg hc, if_neg hc]

theorem unaryDecode_byte (k : Nat) (rest : List Char) (n : Nat) :
    unaryDecode (List.replicate k 'x' ++ 'y' :: rest) n
      = (unaryDecode rest 0).map (fun bs => UInt8.ofNat (n + k) :: bs) := by
  induction k generalizing n with
  | zero =>
    show unaryDecode ('y' :: rest) n = _
    rw [unaryDecode, if_neg (by decide), if_pos rfl]
    rfl
  | succ k ih =>
    show unaryDecode ('x' :: (List.replicate k 'x' ++ 'y' :: rest)) n = _
    rw [unaryDecode, if_pos rfl, ih (n + 1)]
    have : n + 1 + k = n + (k + 1) := by omega
    rw [this]

theorem unaryDecode_segment (bs : Bytes) : unaryDecode (unarySegment bs) 0 = some bs := by
  induction bs with
  | nil => rfl
  | cons b bs ih =>
    rw [unarySegment, unaryDecode_byte, ih]
    have hb : UInt8.ofNat b.toNat = b := by
      cases b
      simp [UInt8.ofNat, UInt8.toNat]
    simp [hb]

theorem unarySegment_chars (bs : Bytes) : ∀ c ∈ unarySegment bs, c = 'x' ∨ c = 'y' := by
  induction bs with
  | nil =>
    intro c hc
    cases hc
  | cons b bs ih =>
    intro c hc
    rw [unarySegment] at hc
    simp only [List.mem_append, List.mem_cons, List.mem_replicate] at hc
    rcases hc with ⟨_, h⟩ | h | h
    · exact Or.inl h
    · exact Or.inr h
    · exact ih c h

theorem unaryClaims_roundtrip (exp : Int) :
    unaryClaimsDecode (unaryClaims (StandardClaims.withExpiresAt exp))
      = some (StandardClaims.withExpiresAt exp) := by
  unfold unaryClaims unaryClaimsDecode StandardClaims.withExpiresAt
  by_cases h : exp < 0
  · simp only [h, if_true, List.length_replicate]
    have : -((exp.natAbs : Nat) : Int) = exp := by omega
    rw [this]
  · simp only [h, if_false, List.length_replicate]
    have h01 : ¬ ((0 : UInt8) = 1) := by decide
    simp only [h01, if_false]
    have : ((exp.natAbs : Nat) : Int) = exp := by omega
    rw [this]

/-- The primitives used for evaluation meet the assumptions. -/
theorem unaryPrims_lawful : unaryPrims.Lawful where
  decode_encode := fun bs => unaryDecode_segment bs
  segment_chars := by
    intro bs c hc
    rcases unarySegment_chars bs c hc with h | h <;> subst h <;> exact ⟨by decide, by decide⟩
  header_roundtrip := by
    show (if stringBytes "HS256" = stringBytes "HS256" then some (some "HS256") else none) = _
    rw [if_pos rfl]
  claims_roundtrip := unaryClaims_roundtrip

theorem HandleGetToken_claims_eq (t : Time) :
    HandleGetToken.claims t = StandardClaims.withExpiresAt (t.Unix + 86400) := by
  show StandardClaims.withExpiresAt (t.Add (24 * Hour)).Unix = _
  rw [Unix_add_day]

/-- C5, refuted as stated, for every choice of hash and codecs that meets the assumptions.
A token issued at clock reading 0 with the one-byte key `[107]` is not rejected one
nanosecond after the 24 hours have passed, since the library compares whole seconds and
accepts the expiry second itself; and it is not rejected by a gate that holds the different
key `[107, 0]`, since HMAC pads a short key with zero bytes. With the unary primitives,
which meet the assumptions, both requests reach the wrapped handler. -/
theorem issued_token_not_rejected :
    (¬ ∃ P : JwtPrims, P.Lawful ∧
      ∀ tok, HandleGetToken.tokenString P ⟨0⟩ [107] = .ok tok →
        WithJWTAuth (ParseWithClaims P ⟨86400000000001⟩) okHandler [107] (authRequest tok)
          = ([], httpError "Invalid token" 401)) ∧
    (¬ ∃ P : JwtPrims, P.Lawful ∧
      ∀ tok, HandleGetToken.tokenString P ⟨0⟩ [107] = .ok tok →
        WithJWTAuth (ParseWithClaims P ⟨0⟩) okHandler [107, 0] (authRequest tok)
          = ([], httpError "Invalid token" 401)) ∧
    (∃ tok, HandleGetToken.tokenString unaryPrims ⟨0⟩ [107] = .ok tok ∧
      WithJWTAuth (ParseWithClaims unaryPrims ⟨86400000000001⟩) okHandler [107]
          (authRequest tok)
        = ([Call.next (authRequest tok)],
            { status := 200, contentType := "text/plain", body := "ok" }) ∧
      WithJWTAuth (ParseWithClaims unaryPrims ⟨0⟩) okHandler [107, 0] (authRequest tok)
        = ([Call.next (authRequest tok)],
            { status := 200, contentType := "text/plain", body := "ok" })) ∧
    (⟨0⟩ : Time).Add (24 * Hour) = ⟨86400000000000⟩ ∧
    ([107, 0] : Bytes) ≠ [107] := by
  refine ⟨?_, ?_, ?_, by decide, by decide⟩
  · rintro ⟨P, hP, hrej⟩
    have hclaims : HandleGetToken.claims ⟨0⟩ = StandardClaims.withExpiresAt 86400 := by
      rw [HandleGetToken_claims_eq]
      rfl
    have h := hrej _ (by
      unfold HandleGetToken.tokenString
      rw [hclaims]
      exact SignedString_eq P 86400 [107])
    rw [WithJWTAuth_signed hP 86400 [107] [107] ⟨86400000000001⟩ okHandler _ (Or.inl rfl)] at h
    have hexp : verifyExp 86400 (⟨86400000000001⟩ : Time).Unix false = true := by decide
    rw [hexp] at h
    simp at h
  · rintro ⟨P, hP, hrej⟩
    have hclaims : HandleGetToken.claims ⟨0⟩ = StandardClaims.withExpiresAt 86400 := by
      rw [HandleGetToken_claims_eq]
      rfl
    have h := hrej _ (by
      unfold HandleGetToken.tokenString
      rw [hclaims]
      exact SignedString_eq P 86400 [107])
    rw [WithJWTAuth_signed hP 86400 [107] [107, 0] ⟨0⟩ okHandler _ (Or.inl rfl)] at h
    have hexp : verifyExp 86400 (⟨0⟩ : Time).Unix false = true := by decide
    rw [hexp, hmacSum_zero_padded] at h
    simp at h
  · have hclaims : HandleGetToken.claims ⟨0⟩ = StandardClaims.withExpiresAt 86400 := by
      rw [HandleGetToken_claims_eq]
      rfl
    refine ⟨SigningString unaryPrims "HS256" (StandardClaims.withExpiresAt 86400) ++ "." ++
      unaryPrims.EncodeSegment (hmacSum unaryPrims .SHA256 [107] (stringBytes
        (SigningString unaryPrims "HS256" (StandardClaims.withExpiresAt 86400)))), ?_, ?_, ?_⟩
    · unfold HandleGetToken.tokenString
      rw [hclaims]
      exact SignedString_eq unaryPrims 86400 [107]
    · rw [WithJWTAuth_signed unaryPrims_lawful 86400 [107] [107] ⟨86400000000001⟩ okHandler _
        (Or.inl rfl)]
      have hexp : verifyExp 86400 (⟨86400000000001⟩ : Time).Unix false = true := by decide
      rw [hexp]
      simp
      exact ⟨rfl, rfl⟩
    · rw [WithJWTAuth_signed unaryPrims_lawful 86400 [107] [107, 0] ⟨0⟩ okHandler _
        (Or.inl rfl)]
      have hexp : verifyExp 86400 (⟨0⟩ : Time).Unix false = true := by decide
      rw [hexp, hmacSum_zero_padded]
      simp
      exact ⟨rfl, rfl⟩

/-- C5, amended. For primitives that meet the assumptions, every key and every issue time
`t`, `HandleGetToken` produces a token whose claims are the expiry time `t.Unix() + 86400`
and nothing else. Presented to `WithJWTAuth` with the same key, bare or behind `Bearer `,
the token is accepted at every time before `t` plus 24 hours, and more generally whenever
the Unix second of the clock is at most the expiry time or the expiry time is the zero
value; it is answered 401 whenever the expiry time is not zero and the Unix second of the
clock is greater. A gate that holds a key under which the HMAC-SHA256 of the signing string
differs answers 401. -/
theorem issued_token_round_trip {Place F : Type} (P : JwtPrims) (hP : P.Lawful) (key : Bytes)
    (t : Time) :
    ∃ tok, HandleGetToken.tokenString P t key = .ok tok ∧
      HandleGetToken.claims t = StandardClaims.withExpiresAt (t.Unix + 86400) ∧
      ∀ (now : Time) (next : Request → List (Call Place F) × Response) (r : Request),
        (r.authorization = tok ∨ r.authorization = "Bearer " ++ tok) →
        (now.nanos < (t.Add (24 * Hour)).nanos →
          WithJWTAuth (ParseWithClaims P now) next key r = (Call.next r :: (next r).1, (next r).2)) ∧
        (t.Unix + 86400 = 0 ∨ now.Unix ≤ t.Unix + 86400 →
          WithJWTAuth (ParseWithClaims P now) next key r = (Call.next r :: (next r).1, (next r).2)) ∧
        (t.Unix + 86400 ≠ 0 → t.Unix + 86400 < now.Unix →
          WithJWTAuth (ParseWithClaims P now) next key r = ([], httpError "Invalid token" 401)) ∧
        (∀ key',
          hmacSum P .SHA256 key'
              (stringBytes (SigningString P "HS256" (HandleGetToken.claims t)))
            ≠ hmacSum P .SHA256 key
              (stringBytes (SigningString P "HS256" (HandleGetToken.claims t))) →
          WithJWTAuth (ParseWithClaims P now) next key' r = ([], httpError "Invalid token" 401)) := by
  have hclaims := HandleGetToken_claims_eq t
  refine ⟨SigningString P "HS256" (StandardClaims.withExpiresAt (t.Unix + 86400)) ++ "." ++
    P.EncodeSegment (hmacSum P .SHA256 key (stringBytes
      (SigningString P "HS256" (StandardClaims.withExpiresAt (t.Unix + 86400))))),
    ?_, hclaims, ?_⟩
  · unfold HandleGetToken.tokenString
    rw [hclaims]
    exact SignedString_eq P (t.Unix + 86400) key
  · intro now next r hauth
    have haccept : t.Unix + 86400 = 0 ∨ now.Unix ≤ t.Unix + 86400 →
        WithJWTAuth (ParseWithClaims P now) next key r = (Call.next r :: (next r).1, (next r).2) := by
      intro hcond
      rw [WithJWTAuth_signed hP (t.Unix + 86400) key key now next r hauth]
      have hexp : verifyExp (t.Unix + 86400) now.Unix false = true := by
        unfold verifyExp
        rcases hcond with h0 | hle
        · rw [if_pos h0]
          rfl
        · by_cases h0 : t.Unix + 86400 = 0
          · rw [if_pos h0]
            rfl
          · rw [if_neg h0]
            exact decide_eq_true hle
      simp [hexp]
    refine ⟨?_, haccept, ?_, ?_⟩
    · intro hbefore
      apply haccept
      right
      rw [← Unix_add_day]
      exact Unix_mono (le_of_lt hbefore)
    · intro hne hlt
      rw [WithJWTAuth_signed hP (t.Unix + 86400) key key now next r hauth]
      have hexp : verifyExp (t.Unix + 86400) now.Unix false = false := by
        unfold verifyExp
        rw [if_neg hne]
        exact decide_eq_false (by omega)
      simp [hexp]
      rfl
    · intro key' hdiff
      rw [hclaims] at hdiff
      rw [WithJWTAuth_signed hP (t.Unix + 86400) key key' now next r hauth]
      have hbeq : (hmacSum P .SHA256 key
            (stringBytes (SigningString P "HS256" (StandardClaims.withExpiresAt (t.Unix + 86400))))
          == hmacSum P .SHA256 key'
            (stringBytes (SigningString P "HS256" (StandardClaims.withExpiresAt (t.Unix + 86400)))))
          = false := by
        rw [beq_eq_false_iff_ne]
        exact fun h => hdiff h.symm
      simp [hbeq]
      rfl

theorem unaryPrims_hmac_head (b : UInt8) (msg : Bytes) :
    (hmacSum unaryPrims .SHA256 [b] msg).head? = some (b ^^^ 0x5c) :=
  rfl

/-- C5, evaluated with the unary primitives on the token issued at clock reading 0 with the
key `[107]`: behind `Bearer ` it is accepted one hour later, it is answered 401 after 25
hours, and a gate holding the key `[108]` answers 401. -/
theorem issued_token_round_trip_witness :
    ∃ tok, HandleGetToken.tokenString unaryPrims ⟨0⟩ [107] = .ok tok ∧
      WithJWTAuth (ParseWithClaims unaryPrims ⟨3600000000000⟩) okHandler [107] (authRequest ("Bearer " ++ tok))
        = ([Call.next (authRequest ("Bearer " ++ tok))],
            { status := 200, contentType := "text/plain", body := "ok" }) ∧
      WithJWTAuth (ParseWithClaims unaryPrims ⟨90000000000000⟩) okHandler [107] (authRequest tok)
        = ([], httpError "Invalid token" 401) ∧
      WithJWTAuth (ParseWithClaims unaryPrims ⟨0⟩) okHandler [108] (authRequest tok)
        = ([], httpError "Invalid token" 401) := by
  obtain ⟨tok, htok, _, h⟩ :=
    @issued_token_round_trip String Int unaryPrims unaryPrims_lawful [107] ⟨0⟩
  refine ⟨tok, htok, ?_, ?_, ?_⟩
  · exact (h ⟨3600000000000⟩ okHandler (authRequest ("Bearer " ++ tok)) (Or.inr rfl)).1
      (by decide)
  · exact (h ⟨90000000000000⟩ okHandler (authRequest tok) (Or.inl rfl)).2.2.1
      (by decide) (by decide)
  · apply (h ⟨0⟩ okHandler (authRequest tok) (Or.inl rfl)).2.2.2 [108]
    intro heq
    have hhead := congrArg List.head? heq
    rw [unaryPrims_hmac_head, unaryPrims_hmac_head] at hhead
    exact absurd hhead (by decide)

end Restaurant
